import Mathlib

/-
Verification of the smo-file-formats decoders (Python sources: util.py,
yaz0.py, sarc.py, szs.py, byml.py, lms.py, msbp.py, msbt.py).

A byte stream is modelled as a `List Nat` (each element one byte of the
file).  Python exceptions are modelled with `Except PyErr`; reader state
(the cursor position of `util.BinaryReader`) is threaded explicitly as a
`Nat` that each read returns alongside its value.  Loops whose trip count
is not structurally bounded take an explicit fuel argument; wrappers pass
fuel that is large enough for any terminating run, and exhaustion is the
distinguished error `PyErr.fuelExhausted`.
-/

namespace Smo

/-- Kinds of Python exceptions / fatal exits raised by the decoders.
`logError` stands for `util.Log.error` (printing and `sys.exit(1)`), which
is also how `yaz0.py` reports a bad signature inline. -/
inductive PyErr where
  | eof             -- OSError("EOF reached") from BinaryReader._check_len
  | structError     -- struct.error (unpack of a short buffer in yaz0)
  | logError        -- util.Log.error / sys.exit(1)
  | keyError        -- KeyError (dict lookup misses)
  | indexError      -- IndexError (list/bytearray index out of range)
  | valueError      -- ValueError (enum conversion, tuple unpacking)
  | attributeError  -- AttributeError (missing attribute lookup)
  | assertionError  -- AssertionError (failed assert)
  | notImplemented  -- NotImplementedError
  | unicodeError    -- UnicodeDecodeError from bytes.decode
  | fuelExhausted   -- modelling artefact: ran out of fuel
deriving DecidableEq, Repr

/-- A byte stream: the contents of a file, one `Nat` per byte. -/
abbrev Stream := List Nat

/-- util.ByteOrder. -/
inductive BO where
  | little
  | big
deriving DecidableEq, Repr

abbrev Exc (α : Type) := Except PyErr α

instance {ε α : Type} [DecidableEq ε] [DecidableEq α] : DecidableEq (Except ε α) := fun a b =>
  match a, b with
  | .ok x, .ok y =>
    if h : x = y then .isTrue (by rw [h]) else .isFalse (by simp [h])
  | .error x, .error y =>
    if h : x = y then .isTrue (by rw [h]) else .isFalse (by simp [h])
  | .ok _, .error _ => .isFalse (by simp)
  | .error _, .ok _ => .isFalse (by simp)

/-- The slice `stream[pos : pos+n]` of Python (clamped, never failing). -/
def sliceN (s : Stream) (pos n : Nat) : List Nat := (s.drop pos).take n

/-- BinaryReader.read with a nonnegative explicit size: Python slices
`stream[pos:pos+size]`, advances the position by `size`, and raises
OSError via `_check_len` when the slice came up short, unless `suppress`
is set. -/
def readRaw (s : Stream) (pos n : Nat) (suppress : Bool) : Exc (List Nat × Nat) :=
  if suppress = false ∧ (sliceN s pos n).length ≠ n then .error .eof
  else .ok (sliceN s pos n, pos + n)

/-- BinaryReader.read with a Python `int` size: `-1` reads the remainder of
the stream (never failing); any other negative size makes `_check_len`
fail unconditionally, because a slice length is never negative. -/
def readInt (s : Stream) (pos : Nat) (n : Int) : Exc (List Nat × Nat) :=
  if n = -1 then
    let out := s.drop pos
    .ok (out, pos + out.length)
  else if n < 0 then .error .eof
  else readRaw s pos n.toNat false

/-- Little-endian value of a byte list (first byte least significant). -/
def leVal (bs : List Nat) : Nat := bs.foldr (fun b acc => b + 256 * acc) 0

/-- Big-endian value of a byte list. -/
def beVal (bs : List Nat) : Nat := bs.foldl (fun acc b => 256 * acc + b) 0

/-- Integer value of a byte list in a given byte order (struct.unpack). -/
def boVal (bo : BO) (bs : List Nat) : Nat :=
  match bo with
  | .little => leVal bs
  | .big => beVal bs

/-- BinaryReader.read_u8. -/
def read_u8 (s : Stream) (pos : Nat) : Exc (Nat × Nat) :=
  match readRaw s pos 1 false with
  | .error e => .error e
  | .ok (bs, p) => .ok (leVal bs, p)

/-- BinaryReader.read_u16. -/
def read_u16 (bo : BO) (s : Stream) (pos : Nat) : Exc (Nat × Nat) :=
  match readRaw s pos 2 false with
  | .error e => .error e
  | .ok (bs, p) => .ok (boVal bo bs, p)

/-- BinaryReader.read_u24 (three bytes, zero-extended per byte order). -/
def read_u24 (bo : BO) (s : Stream) (pos : Nat) : Exc (Nat × Nat) :=
  match readRaw s pos 3 false with
  | .error e => .error e
  | .ok (bs, p) => .ok (boVal bo bs, p)

/-- BinaryReader.read_u32. -/
def read_u32 (bo : BO) (s : Stream) (pos : Nat) : Exc (Nat × Nat) :=
  match readRaw s pos 4 false with
  | .error e => .error e
  | .ok (bs, p) => .ok (boVal bo bs, p)

/-- Two's-complement reinterpretation of a `w`-bit unsigned value. -/
def toSigned (w : Nat) (v : Nat) : Int :=
  if v < 2 ^ (w - 1) then (v : Int) else (v : Int) - 2 ^ w

/-- BinaryReader.read_s16. -/
def read_s16 (bo : BO) (s : Stream) (pos : Nat) : Exc (Int × Nat) :=
  match readRaw s pos 2 false with
  | .error e => .error e
  | .ok (bs, p) => .ok (toSigned 16 (boVal bo bs), p)

/-- BinaryReader.read_f32, keeping the raw IEEE-754 bit pattern (the
decoders only carry the value around; no arithmetic is done on it). -/
def read_f32bits (bo : BO) (s : Stream) (pos : Nat) : Exc (Nat × Nat) :=
  read_u32 bo s pos

/-- BinaryReader.read_u8s. -/
def read_u8s (s : Stream) (count pos : Nat) : Exc (List Nat × Nat) :=
  match count with
  | 0 => .ok ([], pos)
  | n + 1 =>
    match read_u8 s pos with
    | .error e => .error e
    | .ok (v, p) =>
      match read_u8s s n p with
      | .error e => .error e
      | .ok (vs, p2) => .ok (v :: vs, p2)

/-- BinaryReader.read_u16s. -/
def read_u16s (bo : BO) (s : Stream) (count pos : Nat) : Exc (List Nat × Nat) :=
  match count with
  | 0 => .ok ([], pos)
  | n + 1 =>
    match read_u16 bo s pos with
    | .error e => .error e
    | .ok (v, p) =>
      match read_u16s bo s n p with
      | .error e => .error e
      | .ok (vs, p2) => .ok (v :: vs, p2)

/-- BinaryReader.read_u32s. -/
def read_u32s (bo : BO) (s : Stream) (count pos : Nat) : Exc (List Nat × Nat) :=
  match count with
  | 0 => .ok ([], pos)
  | n + 1 =>
    match read_u32 bo s pos with
    | .error e => .error e
    | .ok (v, p) =>
      match read_u32s bo s n p with
      | .error e => .error e
      | .ok (vs, p2) => .ok (v :: vs, p2)

/-- BinaryReader.align: Python computes
`delta = (-pos % alignment + alignment) % alignment`, which for a positive
alignment equals `(alignment - pos % alignment) % alignment`. -/
def pyAlign (pos a : Nat) : Nat := pos + (a - pos % a) % a

/-! Text codecs.  The sources decode byte buffers with Python codecs
"ascii", "utf-8", "utf-16" and "utf-32" (strict error mode).  `none`
models UnicodeDecodeError. -/

/-- The supported codec names. -/
inductive Codec where
  | ascii
  | utf8
  | utf16
  | utf32
deriving DecidableEq, Repr

/-- Strict ASCII: every byte must be < 0x80. -/
def asciiDecode (bs : List Nat) : Option (List Char) :=
  if bs.all (· ≤ 0x7F) then some (bs.map Char.ofNat) else none

/-- Is a UTF-8 continuation byte. -/
def utf8Cont (b : Nat) : Bool := 0x80 ≤ b ∧ b ≤ 0xBF

/-- Strict UTF-8 decoding (rejecting overlong forms, surrogates and
values above U+10FFFF, as CPython does).  Fuel bounds the recursion; one
unit per decoded character suffices. -/
def utf8Dec : Nat → List Nat → Option (List Char)
  | _, [] => some []
  | 0, _ :: _ => none
  | fuel + 1, b :: rest =>
    if b ≤ 0x7F then
      (utf8Dec fuel rest).map (Char.ofNat b :: ·)
    else if 0xC2 ≤ b ∧ b ≤ 0xDF then
      match rest with
      | b1 :: r =>
        if utf8Cont b1 then
          (utf8Dec fuel r).map (Char.ofNat ((b - 0xC0) * 0x40 + (b1 - 0x80)) :: ·)
        else none
      | [] => none
    else if 0xE0 ≤ b ∧ b ≤ 0xEF then
      match rest with
      | b1 :: b2 :: r =>
        let lo1 : Nat := if b = 0xE0 then 0xA0 else 0x80
        let hi1 : Nat := if b = 0xED then 0x9F else 0xBF
        if (lo1 ≤ b1 ∧ b1 ≤ hi1) ∧ utf8Cont b2 then
          (utf8Dec fuel r).map
            (Char.ofNat ((b - 0xE0) * 0x1000 + (b1 - 0x80) * 0x40 + (b2 - 0x80)) :: ·)
        else none
      | _ => none
    else if 0xF0 ≤ b ∧ b ≤ 0xF4 then
      match rest with
      | b1 :: b2 :: b3 :: r =>
        let lo1 : Nat := if b = 0xF0 then 0x90 else 0x80
        let hi1 : Nat := if b = 0xF4 then 0x8F else 0xBF
        if (lo1 ≤ b1 ∧ b1 ≤ hi1) ∧ utf8Cont b2 ∧ utf8Cont b3 then
          (utf8Dec fuel r).map
            (Char.ofNat ((b - 0xF0) * 0x40000 + (b1 - 0x80) * 0x1000 +
              (b2 - 0x80) * 0x40 + (b3 - 0x80)) :: ·)
        else none
      | _ => none
    else none

/-- One 16-bit code unit from two bytes. -/
def u16Of (bigEndian : Bool) (b0 b1 : Nat) : Nat :=
  if bigEndian then b0 * 256 + b1 else b0 + b1 * 256

/-- UTF-16 code-unit stream decoding with surrogate-pair combination;
lone surrogates, and an odd trailing byte, are errors (strict mode). -/
def utf16Units : Nat → Bool → List Nat → Option (List Char)
  | _, _, [] => some []
  | 0, _, _ :: _ => none
  | _ + 1, _, [_] => none
  | fuel + 1, bg, b0 :: b1 :: r =>
    let u := u16Of bg b0 b1
    if u < 0xD800 ∨ 0xE000 ≤ u then
      (utf16Units fuel bg r).map (Char.ofNat u :: ·)
    else if u ≤ 0xDBFF then
      match r with
      | c0 :: c1 :: r2 =>
        let v := u16Of bg c0 c1
        if 0xDC00 ≤ v ∧ v ≤ 0xDFFF then
          (utf16Units fuel bg r2).map
            (Char.ofNat (0x10000 + (u - 0xD800) * 0x400 + (v - 0xDC00)) :: ·)
        else none
      | _ => none
    else none

/-- Python "utf-16" codec: a leading BOM selects the byte order and is
consumed; with no BOM the data is decoded little-endian. -/
def utf16Decode (bs : List Nat) : Option (List Char) :=
  match bs with
  | 0xFF :: 0xFE :: r => utf16Units (r.length + 1) false r
  | 0xFE :: 0xFF :: r => utf16Units (r.length + 1) true r
  | _ => utf16Units (bs.length + 1) false bs

/-- One 32-bit code unit from four bytes. -/
def u32Of (bigEndian : Bool) (b0 b1 b2 b3 : Nat) : Nat :=
  if bigEndian then ((b0 * 256 + b1) * 256 + b2) * 256 + b3
  else b0 + 256 * (b1 + 256 * (b2 + 256 * b3))

/-- UTF-32 group decoding; surrogate code points, values above U+10FFFF
and a short trailing group are errors. -/
def utf32Units : Nat → Bool → List Nat → Option (List Char)
  | _, _, [] => some []
  | 0, _, _ :: _ => none
  | fuel + 1, bg, b0 :: r0 =>
    match r0 with
    | b1 :: b2 :: b3 :: r =>
      let u := u32Of bg b0 b1 b2 b3
      if u ≤ 0x10FFFF ∧ (u < 0xD800 ∨ 0xE000 ≤ u) then
        (utf32Units fuel bg r).map (Char.ofNat u :: ·)
      else none
    | _ => none

/-- Python "utf-32" codec: a leading BOM selects the byte order and is
consumed; with no BOM the data is decoded little-endian. -/
def utf32Decode (bs : List Nat) : Option (List Char) :=
  match bs with
  | 0xFF :: 0xFE :: 0x00 :: 0x00 :: r => utf32Units (r.length + 1) false r
  | 0x00 :: 0x00 :: 0xFE :: 0xFF :: r => utf32Units (r.length + 1) true r
  | _ => utf32Units (bs.length + 1) false bs

/-- bytes.decode(codec) in strict mode. -/
def pyDecode (c : Codec) (bs : List Nat) : Option String :=
  match c with
  | .ascii => (asciiDecode bs).map List.asString
  | .utf8 => (utf8Dec (bs.length + 1) bs).map List.asString
  | .utf16 => (utf16Decode bs).map List.asString
  | .utf32 => (utf32Decode bs).map List.asString

/-! BinaryReader.read_string and its callers. -/

/-- The null-terminated branch of BinaryReader.read_string (size = -1):
read `charSize` bytes at a time, stopping when the chunk compares equal
to the one-byte string b"\x00" — so for charSize 2 or 4 the loop can only
stop by running off the end of the buffer, exactly as in the source.
Bytes accumulate without the terminator and are decoded at the end. -/
def readStringNT (c : Codec) (charSize : Nat) (s : Stream) :
    Nat → Nat → List Nat → Exc (String × Nat)
  | 0, _, _ => .error .fuelExhausted
  | fuel + 1, pos, acc =>
    match readRaw s pos charSize false with
    | .error e => .error e
    | .ok (chunk, p) =>
      if chunk = [0] then
        match pyDecode c acc with
        | some out => .ok (out, p)
        | none => .error .unicodeError
      else readStringNT c charSize s fuel p (acc ++ chunk)

/-- The index-driven truncation loop of the fixed-size branch of
BinaryReader.read_string: for each chunk index i (0, charSize,
2*charSize, ... sliced out of the raw field), a chunk whose integer value
is zero replaces the buffer by its first i BYTES (`out = out[:i]` in the
source slices bytes although i counts chunks), and the loop keeps
running. -/
def truncAtNull (orig : List Nat) (chunks : List (List Nat)) : List Nat :=
  (chunks.foldl
    (fun st chunk =>
      match st with
      | (i, out) => (i + 1, if leVal chunk = 0 then out.take i else out))
    (0, orig)).2

/-- The fixed-size branch of BinaryReader.read_string: a suppressed read
of `size` bytes (short reads allowed), truncation via `truncAtNull`, then
decoding.  The byte order only enters `int.from_bytes`, whose result is
compared with zero, so the chunk value is computed little-endian without
loss.  Chunk boundaries come from `range(0, size, char_size)`. -/
def readStringFixed (c : Codec) (charSize : Nat) (s : Stream)
    (size pos : Nat) : Exc (String × Nat) :=
  match readRaw s pos size true with
  | .error e => .error e
  | .ok (out, p) =>
    let idxs := (List.range size).filter (fun i => i % charSize = 0)
    let chunks := idxs.map (fun i => (out.drop i).take charSize)
    match pyDecode c (truncAtNull out chunks) with
    | some str => .ok (str, p)
    | none => .error .unicodeError

/-- Modelled from the spec's words for comparison with the source's
`truncAtNull`: "a fixed-size field truncated at the first null code
unit" — scan the field one code unit (`cs` bytes) at a time and keep
everything before the first all-zero unit.  Fuel one per unit
suffices. -/
def specNullTruncate (cs : Nat) : Nat → List Nat → List Nat
  | _, [] => []
  | 0, l => l
  | fuel + 1, l =>
    if leVal (l.take cs) = 0 then []
    else l.take cs ++ specNullTruncate cs fuel (l.drop cs)

/-- BinaryReader.read_string.  `size` is a Python int (−1 selects the
null-terminated branch).  For charSize 0 the Python loop would not
advance; the decoders only pass 1, 2 or 4. -/
def read_string (c : Codec) (charSize : Nat) (s : Stream) (size : Int)
    (fuel pos : Nat) : Exc (String × Nat) :=
  if size = -1 then readStringNT c charSize s fuel pos []
  else if size < 0 then .error .eof
  else readStringFixed c charSize s size.toNat pos

/-- BinaryReader.read_signature: a fixed-size ASCII read compared with
the expected magic; a mismatch is fatal via Log.error. -/
def read_signature (s : Stream) (pos size : Nat) (expected : String) :
    Exc (String × Nat) :=
  match readStringFixed .ascii 1 s size pos with
  | .error e => .error e
  | .ok (sig, p) => if sig = expected then .ok (sig, p) else .error .logError

/-- BinaryReader.read_byte_order: two bytes, FE FF selects big endian and
FF FE little endian; anything else is fatal via Log.error. -/
def read_byte_order (s : Stream) (pos : Nat) : Exc (BO × Nat) :=
  match readRaw s pos 2 false with
  | .error e => .error e
  | .ok (bs, p) =>
    if bs = [0xFE, 0xFF] then .ok (.big, p)
    else if bs = [0xFF, 0xFE] then .ok (.little, p)
    else .error .logError

/-! Insertion-ordered Python dict as an association list. -/

/-- `d[k] = v` on a Python dict: update the value in place if the key is
present, else append the binding. -/
def dictInsert {κ ν : Type} [DecidableEq κ] (d : List (κ × ν)) (k : κ) (v : ν) :
    List (κ × ν) :=
  match d with
  | [] => [(k, v)]
  | (k0, v0) :: rest =>
    if k0 = k then (k0, v) :: rest else (k0, v0) :: dictInsert rest k v

/-- Python dict lookup. -/
def dictGet? {κ ν : Type} [DecidableEq κ] (d : List (κ × ν)) (k : κ) : Option ν :=
  match d with
  | [] => none
  | (k0, v0) :: rest => if k0 = k then some v0 else dictGet? rest k

/-- Python list subscript with a nonnegative index (IndexError past the
end). -/
def pyGet {α : Type} (l : List α) (i : Nat) : Exc α :=
  match l.get? i with
  | some v => .ok v
  | none => .error .indexError

/-- Python list / bytearray subscript with an int index: a negative index
wraps once from the end; out of range raises IndexError. -/
def pyGetI (l : List Nat) (i : Int) : Exc Nat :=
  let j : Int := if i < 0 then i + l.length else i
  if 0 ≤ j ∧ j < l.length then
    match l.get? j.toNat with
    | some v => .ok v
    | none => .error .indexError
  else .error .indexError

/-! Yaz0 decompressor (yaz0.py). -/

/-- The byte-by-byte copy loop of a Yaz0 back-reference:
`dst_buffer[dst_idx] = dst_buffer[copy_idx]; copy_idx += 1; dst_idx += 1`
repeated `n` times.  The source index is a Python int (it may be
negative, wrapping from the end of the buffer); writing past the end of
the fixed-size bytearray raises IndexError. -/
def yaz0Copy : Nat → List Nat → Int → Nat → Exc (List Nat × Nat)
  | 0, dst, _, di => .ok (dst, di)
  | n + 1, dst, ci, di =>
    match pyGetI dst ci with
    | .error e => .error e
    | .ok v =>
      if di < dst.length then yaz0Copy n (dst.set di v) (ci + 1) (di + 1)
      else .error .indexError

/-- The code-byte refresh at the top of each Yaz0 iteration: when all
code bits are consumed, fetch the next control byte and reset the bit
count to 8. -/
def yaz0Fetch (data : List Nat) (si cb cbc : Nat) : Exc (Nat × Nat × Nat) :=
  if cbc = 0 then
    match pyGet data si with
    | .error e => .error e
    | .ok b => .ok (b, si + 1, 8)
  else .ok (cb, si, cbc)

/-- The copy-length decoding of a back-reference: a zero high nibble of
the first byte makes a third byte encode `length - 0x12`, otherwise the
nibble encodes `length - 2`. -/
def yaz0NumBytes (data : List Nat) (b1 si : Nat) : Exc (Nat × Nat) :=
  if b1 >>> 4 = 0 then
    match pyGet data si with
    | .error e => .error e
    | .ok b3 => .ok (b3 + 0x12, si + 1)
  else .ok (b1 >>> 4 + 2, si)

/-- The main Yaz0 loop over `data = src[0x10:]`.  State: source index,
destination index, current code byte (a Python int that keeps growing
under `<<= 1`; bit 7 is tested), remaining code bits, and the
preallocated destination buffer.  Each completed iteration advances the
destination index, so fuel `size + 1` is enough for any run. -/
def yaz0Loop (data : List Nat) (size : Nat) :
    Nat → Nat → Nat → Nat → Nat → List Nat → Exc (List Nat)
  | 0, _, _, _, _, _ => .error .fuelExhausted
  | fuel + 1, si, di, codeByte, codeBits, dst =>
    if size ≤ di then .ok dst
    else
      match yaz0Fetch data si codeByte codeBits with
      | .error e => .error e
      | .ok (cb, si1, cbc) =>
        if Nat.land cb 0x80 ≠ 0 then
          -- straight copy of one literal byte
          match pyGet data si1 with
          | .error e => .error e
          | .ok b =>
            if di < dst.length then
              yaz0Loop data size fuel (si1 + 1) (di + 1) (cb <<< 1) (cbc - 1)
                (dst.set di b)
            else .error .indexError
        else
          -- back-reference copy
          match pyGet data si1 with
          | .error e => .error e
          | .ok b1 =>
            match pyGet data (si1 + 1) with
            | .error e => .error e
            | .ok b2 =>
              let dist := (Nat.land b1 0xF) <<< 8 ||| b2
              let copyIdx : Int := (di : Int) - ((dist : Int) + 1)
              match yaz0NumBytes data b1 (si1 + 2) with
              | .error e => .error e
              | .ok (numBytes, si3) =>
                match yaz0Copy numBytes dst copyIdx di with
                | .error e => .error e
                | .ok (dst2, di2) =>
                  yaz0Loop data size fuel si3 di2 (cb <<< 1) (cbc - 1) dst2

/-- Yaz0.decompress: check the 4-byte magic (a mismatch prints and exits),
unpack the big-endian declared size from bytes 4..8 (struct.error on a
short buffer), then run the bitstream loop over `src[0x10:]` against a
zero-filled buffer of the declared size. -/
def yaz0Decompress (src : Stream) : Exc (List Nat) :=
  if sliceN src 0 4 ≠ [0x59, 0x61, 0x7A, 0x30] then .error .logError
  else if (sliceN src 4 4).length ≠ 4 then .error .structError
  else
    yaz0Loop (src.drop 0x10) (beVal (sliceN src 4 4))
      (beVal (sliceN src 4 4) + 1) 0 0 0 0
      (List.replicate (beVal (sliceN src 4 4)) 0)

/-! SARC archive reader (sarc.py). -/

/-- sarc.Header: magic, header-size assert (read little-endian, before
the byte-order mark is seen), byte-order mark, file size, data offset,
version, two reserved bytes.  Only the byte order and data offset feed
the rest of the decode. -/
def sarcHeader (s : Stream) (pos : Nat) : Exc ((BO × Nat) × Nat) :=
  match read_signature s pos 4 "SARC" with
  | .error e => .error e
  | .ok (_, p) =>
    match read_u16 .little s p with
    | .error e => .error e
    | .ok (hsz, p) =>
      if hsz ≠ 0x14 then .error .assertionError
      else
        match read_byte_order s p with
        | .error e => .error e
        | .ok (bo, p) =>
          match read_u32 bo s p with
          | .error e => .error e
          | .ok (_fileSize, p) =>
            match read_u32 bo s p with
            | .error e => .error e
            | .ok (dataOffset, p) =>
              match read_u16 bo s p with
              | .error e => .error e
              | .ok (_version, p) =>
                match readRaw s p 2 false with
                | .error e => .error e
                | .ok (_, p) => .ok ((bo, dataOffset), p)

/-- One SFAT entry: name hash, attributes, start offset, end offset. -/
def sfatEntry (bo : BO) (s : Stream) (pos : Nat) :
    Exc ((Nat × Nat × Nat × Nat) × Nat) :=
  match read_u32 bo s pos with
  | .error e => .error e
  | .ok (h, p) =>
    match read_u32 bo s p with
    | .error e => .error e
    | .ok (attrs, p) =>
      match read_u32 bo s p with
      | .error e => .error e
      | .ok (st, p) =>
        match read_u32 bo s p with
        | .error e => .error e
        | .ok (en, p) => .ok ((h, attrs, st, en), p)

/-- The SFAT entry loop. -/
def sfatEntries (bo : BO) (s : Stream) :
    Nat → Nat → Exc (List (Nat × Nat × Nat × Nat) × Nat)
  | 0, pos => .ok ([], pos)
  | n + 1, pos =>
    match sfatEntry bo s pos with
    | .error e => .error e
    | .ok (ent, p) =>
      match sfatEntries bo s n p with
      | .error e => .error e
      | .ok (es, p2) => .ok (ent :: es, p2)

/-- sarc.SFAT: magic, entries-offset assert, entry count, hash seed, then
the entries. -/
def sfatBlock (bo : BO) (s : Stream) (pos : Nat) :
    Exc ((Nat × List (Nat × Nat × Nat × Nat)) × Nat) :=
  match read_signature s pos 4 "SFAT" with
  | .error e => .error e
  | .ok (_, p) =>
    match read_u16 bo s p with
    | .error e => .error e
    | .ok (off, p) =>
      if off ≠ 0xC then .error .assertionError
      else
        match read_u16 bo s p with
        | .error e => .error e
        | .ok (count, p) =>
          match read_u32 bo s p with
          | .error e => .error e
          | .ok (_hashKey, p) =>
            match sfatEntries bo s count p with
            | .error e => .error e
            | .ok (es, p2) => .ok ((count, es), p2)

/-- The SFNT name loop: a null-terminated UTF-8 name, then 4-byte
alignment, per file. -/
def sfntNames (s : Stream) : Nat → Nat → Exc (List String × Nat)
  | 0, pos => .ok ([], pos)
  | n + 1, pos =>
    match readStringNT .utf8 1 s (s.length + 1) pos [] with
    | .error e => .error e
    | .ok (name, p) =>
      match sfntNames s n (pyAlign p 4) with
      | .error e => .error e
      | .ok (ns, p2) => .ok (name :: ns, p2)

/-- sarc.SFNT: magic, names-offset assert, two reserved bytes, names. -/
def sfntBlock (bo : BO) (s : Stream) (count pos : Nat) :
    Exc (List String × Nat) :=
  match read_signature s pos 4 "SFNT" with
  | .error e => .error e
  | .ok (_, p) =>
    match read_u16 bo s p with
    | .error e => .error e
    | .ok (off, p) =>
      if off ≠ 0x8 then .error .assertionError
      else
        match readRaw s p 2 false with
        | .error e => .error e
        | .ok (_, p) => sfntNames s count p

/-- The file-extraction loop of SARC.__init__: for each (entry, name)
pair, seek to `data_offset + start`, read `end - start` bytes (a Python
int difference, so a negative length fails through `_check_len`), and
store under the name. -/
def sarcFiles (s : Stream) (dataOffset : Nat) :
    List (Nat × Nat × Nat × Nat) → List String → List (String × List Nat) →
    Exc (List (String × List Nat))
  | [], _, acc => .ok acc
  | _ :: _, [], acc => .ok acc
  | (_, _, st, en) :: es, name :: ns, acc =>
    match readInt s (dataOffset + st) ((en : Int) - (st : Int)) with
    | .error e => .error e
    | .ok (data, _) => sarcFiles s dataOffset es ns (dictInsert acc name data)

/-- SARC.__init__: header, SFAT, SFNT (zip of entries and names), then
the name-to-bytes mapping. -/
def sarcDecode (s : Stream) : Exc (List (String × List Nat)) :=
  match sarcHeader s 0 with
  | .error e => .error e
  | .ok ((bo, dataOffset), p) =>
    match sfatBlock bo s p with
    | .error e => .error e
    | .ok ((count, entries), p2) =>
      match sfntBlock bo s count p2 with
      | .error e => .error e
      | .ok (names, _) => sarcFiles s dataOffset entries names []

/-! SZS (szs.py). -/

/-- SZS.__init__ as written: it calls `yaz0.decompress(stream)`, but the
module `yaz0` has no top-level attribute `decompress` (the function lives
on the class, `Yaz0.decompress`), so every construction raises
AttributeError before touching the stream. -/
def szsDecode (_stream : Stream) : Exc (List (String × List Nat)) :=
  .error .attributeError

/-- The composition the spec describes for SZS: decompress, then parse as
an archive. -/
def szsIntended (stream : Stream) : Exc (List (String × List Nat)) :=
  match yaz0Decompress stream with
  | .error e => .error e
  | .ok raw => sarcDecode raw

/-! BYML structured value decoder (byml.py). -/

/-- The members of byml.NodeType; `NodeType(x)` on any other value raises
ValueError. -/
def isNodeType (n : Nat) : Bool :=
  n = 0xA0 ∨ n = 0xA1 ∨ n = 0xC0 ∨ n = 0xC1 ∨ n = 0xC2 ∨ n = 0xD0 ∨
  n = 0xD1 ∨ n = 0xD2 ∨ n = 0xD3 ∨ n = 0xD4 ∨ n = 0xD5 ∨ n = 0xD6 ∨ n = 0xFF

/-- byml.OFFSET_TYPES: BINARY, ARRAY, HASH, I64, U64, F64. -/
def isOffsetType (n : Nat) : Bool :=
  n = 0xA1 ∨ n = 0xC0 ∨ n = 0xC1 ∨ n = 0xD4 ∨ n = 0xD5 ∨ n = 0xD6

/-- BYML.get_string: a missing table or an out-of-range index is fatal
via Log.error. -/
def bymlGetString (table : Option (List String)) (idx : Nat) : Exc String :=
  match table with
  | none => .error .logError
  | some t =>
    match t.get? idx with
    | some str => .ok str
    | none => .error .logError

/-- The string-collection loop of BYML.read_string_table: seek to
`start + offset` and read a null-terminated UTF-8 string, per offset. -/
def bymlTableStrings (s : Stream) (start : Nat) :
    List Nat → Exc (List String)
  | [] => .ok []
  | off :: offs =>
    match readStringNT .utf8 1 s (s.length + 1) (start + off) [] with
    | .error e => .error e
    | .ok (str, _) =>
      match bymlTableStrings s start offs with
      | .error e => .error e
      | .ok strs => .ok (str :: strs)

/-- BYML.read_string_table: offset zero means no table; otherwise a
STRING_TABLE node (count, offsets, strings addressed relative to the
node start). -/
def bymlStringTable (bo : BO) (s : Stream) (start : Nat) :
    Exc (Option (List String)) :=
  if start = 0 then .ok none
  else
    match read_u8 s start with
    | .error e => .error e
    | .ok (ty, p) =>
      if isNodeType ty = false then .error .valueError
      else if ty ≠ 0xC2 then .error .logError
      else
        match read_u24 bo s p with
        | .error e => .error e
        | .ok (count, p) =>
          match read_u32s bo s count p with
          | .error e => .error e
          | .ok (offs, _) =>
            match bymlTableStrings s start offs with
            | .error e => .error e
            | .ok strs => .ok (some strs)

/-- Decoded BYML values.  Only the cases reachable in the source are ever
produced; container entries never materialise (see
`bymlReadContainerEntry`). -/
inductive BVal where
  | vArr (l : List BVal)
  | vMap (m : List (String × BVal))

/-- BYML.read_container_entry.  For an offset type the 4-byte offset is
read (and the reader seeks there) first.  The constructor dispatch dict
is then built, and building it evaluates `self.reader.read_i32` and
`self.reader.read_i64` — attributes that BinaryReader does not define
(its methods are `read_s32` / `read_s64`) — so every call raises
AttributeError before any entry value is decoded. -/
def bymlReadContainerEntry (bo : BO) (s : Stream) (pos : Nat)
    (entryType : Nat) : Exc (BVal × Nat) :=
  if isOffsetType entryType then
    match read_u32 bo s pos with
    | .error e => .error e
    | .ok (_off, _) => .error .attributeError
  else .error .attributeError

/-- The entry loop of BYML.read_hash_node: for entry i, seek to
`entries_start + i*8`, read a 24-bit key index, resolve the key, read
the entry type byte (ValueError if it is no NodeType member), then
decode the entry. -/
def bymlHashEntries (bo : BO) (s : Stream)
    (hashKeyTable : Option (List String)) (entriesStart : Nat) :
    Nat → Nat → Exc (List (String × BVal))
  | _, 0 => .ok []
  | i, n + 1 =>
    match read_u24 bo s (entriesStart + i * 8) with
    | .error e => .error e
    | .ok (nameIdx, p) =>
      match bymlGetString hashKeyTable nameIdx with
      | .error e => .error e
      | .ok name =>
        match read_u8 s p with
        | .error e => .error e
        | .ok (ty, p2) =>
          if isNodeType ty = false then .error .valueError
          else
            match bymlReadContainerEntry bo s p2 ty with
            | .error e => .error e
            | .ok (v, _) =>
              match bymlHashEntries bo s hashKeyTable entriesStart (i + 1) n with
              | .error e => .error e
              | .ok rest => .ok ((name, v) :: rest)

/-- BYML.read_hash_node: node type byte (soft warning when it is not
HASH, which never changes the result), 24-bit entry count, entries. -/
def bymlReadHashNode (bo : BO) (s : Stream)
    (hashKeyTable : Option (List String)) (pos : Nat) :
    Exc (List (String × BVal)) :=
  match read_u8 s pos with
  | .error e => .error e
  | .ok (ty, p) =>
    if isNodeType ty = false then .error .valueError
    else
      match read_u24 bo s p with
      | .error e => .error e
      | .ok (count, p2) => bymlHashEntries bo s hashKeyTable p2 0 count

/-- The entry loop of BYML.read_array_node: entry i is decoded at
`entries_start + i*4`. -/
def bymlArrayEntries (bo : BO) (s : Stream) (entriesStart : Nat) :
    Nat → List Nat → Exc (List BVal)
  | _, [] => .ok []
  | i, ty :: tys =>
    match bymlReadContainerEntry bo s (entriesStart + i * 4) ty with
    | .error e => .error e
    | .ok (v, _) =>
      match bymlArrayEntries bo s entriesStart (i + 1) tys with
      | .error e => .error e
      | .ok rest => .ok (v :: rest)

/-- BYML.read_array_node: node type byte (soft warning only), 24-bit
count, per-entry type bytes (each converted to NodeType), 4-byte
alignment, entries. -/
def bymlReadArrayNode (bo : BO) (s : Stream) (pos : Nat) :
    Exc (List BVal) :=
  match read_u8 s pos with
  | .error e => .error e
  | .ok (ty, p) =>
    if isNodeType ty = false then .error .valueError
    else
      match read_u24 bo s p with
      | .error e => .error e
      | .ok (count, p2) =>
        match read_u8s s count p2 with
        | .error e => .error e
        | .ok (tys, p3) =>
          if tys.all (fun t => isNodeType t) = false then .error .valueError
          else bymlArrayEntries bo s (pyAlign p3 4) 0 tys

/-- BYML.read_root: offset zero means no root; the node type byte must
name ARRAY or HASH, any other NodeType member is fatal via Log.error. -/
def bymlReadRoot (bo : BO) (s : Stream)
    (hashKeyTable : Option (List String)) (start : Nat) :
    Exc (Option BVal) :=
  if start = 0 then .ok none
  else
    match read_u8 s start with
    | .error e => .error e
    | .ok (ty, _) =>
      if isNodeType ty = false then .error .valueError
      else if ty = 0xC0 then
        match bymlReadArrayNode bo s start with
        | .error e => .error e
        | .ok l => .ok (some (.vArr l))
      else if ty = 0xC1 then
        match bymlReadHashNode bo s hashKeyTable start with
        | .error e => .error e
        | .ok m => .ok (some (.vMap m))
      else .error .logError

/-- BYML.read_bool_node, parametrised by the `quiet` flag.  Returns the
decoded boolean, the position after the 32-bit raw value, and how many
soft-validation messages Log.info printed. -/
def bymlReadBoolNode (bo : BO) (s : Stream) (pos : Nat) (quiet : Bool) :
    Exc (Bool × Nat × Nat) :=
  match read_u32 bo s pos with
  | .error e => .error e
  | .ok (v, p) =>
    if v = 0 then .ok (false, p, 0)
    else if quiet = false ∧ v ≠ 1 then .ok (true, p, 1)
    else .ok (true, p, 0)

/-- The decoded document: both string tables and the root value. -/
structure BymlDoc where
  hashKeyTable : Option (List String)
  stringTable : Option (List String)
  root : Option BVal

/-- The body of BYML.__init__ once the byte order is known: version,
three header offsets, both string tables, and the root node. -/
def bymlDecodeFrom (bo : BO) (s : Stream) : Exc BymlDoc :=
  match read_u16 bo s 2 with
  | .error e => .error e
  | .ok (_version, p) =>
    match read_u32 bo s p with
    | .error e => .error e
    | .ok (hkOff, p) =>
      match read_u32 bo s p with
      | .error e => .error e
      | .ok (stOff, p) =>
        match read_u32 bo s p with
        | .error e => .error e
        | .ok (rootOff, _) =>
          match bymlStringTable bo s hkOff with
          | .error e => .error e
          | .ok hkTable =>
            match bymlStringTable bo s stOff with
            | .error e => .error e
            | .ok stTable =>
              match bymlReadRoot bo s hkTable rootOff with
              | .error e => .error e
              | .ok root => .ok ⟨hkTable, stTable, root⟩

/-- BYML.__init__: the 2-byte magic is read (EOF if short) and selects
the byte order through a dict lookup (KeyError on anything else), then
the rest of the document is decoded. -/
def bymlDecode (s : Stream) : Exc BymlDoc :=
  match readRaw s 0 2 false with
  | .error e => .error e
  | .ok (magic, _) =>
    if magic = [0x42, 0x59] then bymlDecodeFrom .big s
    else if magic = [0x59, 0x42] then bymlDecodeFrom .little s
    else .error .keyError

/-! LMS localization container framework (lms.py). -/

/-- lms.Encoding; `Encoding(x)` on any other code raises ValueError. -/
inductive LmsEncoding where
  | utf8
  | utf16
  | utf32
deriving DecidableEq, Repr

/-- lms.Encoding(code). -/
def encodingOf (code : Nat) : Exc LmsEncoding :=
  if code = 0 then .ok .utf8
  else if code = 1 then .ok .utf16
  else if code = 2 then .ok .utf32
  else .error .valueError

/-- The (codec, code-unit width) pair each encoding selects in
Block.read_encoded_string and TXT2.read_tag_string. -/
def encPair (e : LmsEncoding) : Codec × Nat :=
  match e with
  | .utf8 => (.utf8, 1)
  | .utf16 => (.utf16, 2)
  | .utf32 => (.utf32, 4)

/-- Block.read_encoded_string: read_string with the block encoding's
codec and code-unit width. -/
def readEncoded (e : LmsEncoding) (s : Stream) (size : Int) (pos : Nat) :
    Exc (String × Nat) :=
  read_string (encPair e).1 (encPair e).2 s size (s.length + 1) pos

/-- lms.Header: 8-byte signature, byte-order mark, 2 unknown bytes,
encoding code, version, block count, 2 unknown bytes, file size, 10
padding bytes (a full 0x20-byte header). -/
structure LmsHeader where
  bo : BO
  encoding : LmsEncoding
  version : Nat
  numBlocks : Nat
  fileSize : Nat
deriving DecidableEq, Repr

/-- Parse lms.Header against an expected signature. -/
def lmsHeader (s : Stream) (sig : String) : Exc (LmsHeader × Nat) :=
  match read_signature s 0 8 sig with
  | .error e => .error e
  | .ok (_, p) =>
    match read_byte_order s p with
    | .error e => .error e
    | .ok (bo, p) =>
      match readRaw s p 2 false with
      | .error e => .error e
      | .ok (_, p) =>
        match read_u8 s p with
        | .error e => .error e
        | .ok (encCode, p) =>
          match encodingOf encCode with
          | .error e => .error e
          | .ok enc =>
            match read_u8 s p with
            | .error e => .error e
            | .ok (version, p) =>
              match read_u16 bo s p with
              | .error e => .error e
              | .ok (numBlocks, p) =>
                match readRaw s p 2 false with
                | .error e => .error e
                | .ok (_, p) =>
                  match read_u32 bo s p with
                  | .error e => .error e
                  | .ok (fileSize, p) =>
                    match readRaw s p 10 false with
                    | .error e => .error e
                    | .ok (_, p) =>
                      .ok (⟨bo, enc, version, numBlocks, fileSize⟩, p)

/-- lms.LabelBlock.Label: name and stored index. -/
structure Label where
  name : String
  idx : Nat
deriving DecidableEq, Repr

/-- The group-header loop of LabelBlock: `count` pairs of
(label_count, offset). -/
def labelGroupHeaders (bo : BO) (s : Stream) :
    Nat → Nat → Exc (List (Nat × Nat) × Nat)
  | 0, pos => .ok ([], pos)
  | n + 1, pos =>
    match read_u32 bo s pos with
    | .error e => .error e
    | .ok (labelCount, p) =>
      match read_u32 bo s p with
      | .error e => .error e
      | .ok (off, p2) =>
        match labelGroupHeaders bo s n p2 with
        | .error e => .error e
        | .ok (gs, p3) => .ok ((labelCount, off) :: gs, p3)

/-- The label loop within one group: length byte, fixed-size UTF-8 name,
32-bit index, repeated. -/
def labelEntries (bo : BO) (s : Stream) :
    Nat → Nat → Exc (List Label × Nat)
  | 0, pos => .ok ([], pos)
  | n + 1, pos =>
    match read_u8 s pos with
    | .error e => .error e
    | .ok (len, p) =>
      match readStringFixed .utf8 1 s len p with
      | .error e => .error e
      | .ok (name, p2) =>
        match read_u32 bo s p2 with
        | .error e => .error e
        | .ok (idx, p3) =>
          match labelEntries bo s n p3 with
          | .error e => .error e
          | .ok (ls, p4) => .ok (⟨name, idx⟩ :: ls, p4)

/-- The per-group collection loop: seek to `start + offset` and read the
group's labels. -/
def labelsOfGroups (bo : BO) (s : Stream) (start : Nat) :
    List (Nat × Nat) → Exc (List Label)
  | [] => .ok []
  | (count, off) :: gs =>
    match labelEntries bo s count (start + off) with
    | .error e => .error e
    | .ok (ls, _) =>
      match labelsOfGroups bo s start gs with
      | .error e => .error e
      | .ok rest => .ok (ls ++ rest)

/-- The comparison `labels.sort(key=lambda k: k.idx)` sorts by. -/
def labelLE (a b : Label) : Prop := a.idx ≤ b.idx

instance : DecidableRel labelLE := fun a b => Nat.decLe a.idx b.idx

instance : IsTotal Label labelLE := ⟨fun a b => Nat.le_total a.idx b.idx⟩

instance : IsTrans Label labelLE := ⟨fun _ _ _ => Nat.le_trans⟩

/-- Stable sort by index: the model of `labels.sort(key=lambda k: k.idx)`
(Python's sort is stable; any stable sort by the same key computes the
same list, and `List.insertionSort` is stable). -/
def sortLabels (l : List Label) : List Label := List.insertionSort labelLE l

/-- lms.LabelBlock.__init__: group count, group headers, labels gathered
group by group, then the stable sort ascending by stored index. -/
def labelBlock (bo : BO) (s : Stream) (pos : Nat) : Exc (List Label) :=
  match read_u32 bo s pos with
  | .error e => .error e
  | .ok (groupCount, p) =>
    match labelGroupHeaders bo s groupCount p with
    | .error e => .error e
    | .ok (groups, _) =>
      match labelsOfGroups bo s pos groups with
      | .error e => .error e
      | .ok labels => .ok (sortLabels labels)

/-! MSBP project-definition decoder (msbp.py). -/

/-- Python `f"{c:02x}"`: lowercase hex, zero-padded to two digits. -/
def pyFmt02x (n : Nat) : String :=
  if n < 16 then String.mk ('0' :: Nat.toDigits 16 n)
  else String.mk (Nat.toDigits 16 n)

/-- The color loop of CLR1: four bytes per color, rendered as
`"0x" + four two-digit hex fields`. -/
def clr1Colors (s : Stream) : Nat → Nat → Exc (List String × Nat)
  | 0, pos => .ok ([], pos)
  | n + 1, pos =>
    match read_u8 s pos with
    | .error e => .error e
    | .ok (a, p) =>
      match read_u8 s p with
      | .error e => .error e
      | .ok (b, p) =>
        match read_u8 s p with
        | .error e => .error e
        | .ok (c, p) =>
          match read_u8 s p with
          | .error e => .error e
          | .ok (d, p) =>
            match clr1Colors s n p with
            | .error e => .error e
            | .ok (cs, p2) =>
              .ok (("0x" ++ pyFmt02x a ++ pyFmt02x b ++ pyFmt02x c ++ pyFmt02x d) :: cs, p2)

/-- msbp.CLR1: color count then colors. -/
def clr1Block (bo : BO) (s : Stream) (pos : Nat) : Exc (List String) :=
  match read_u32 bo s pos with
  | .error e => .error e
  | .ok (count, p) =>
    match clr1Colors s count p with
    | .error e => .error e
    | .ok (cs, _) => .ok cs

/-- The attribute loop of ATI2: type byte, padding byte, 16-bit index,
32-bit offset per attribute. -/
def ati2Attrs (bo : BO) (s : Stream) : Nat → Nat → Exc (List (Nat × Nat × Nat) × Nat)
  | 0, pos => .ok ([], pos)
  | n + 1, pos =>
    match read_u8 s pos with
    | .error e => .error e
    | .ok (ty, p) =>
      match read_u8 s p with
      | .error e => .error e
      | .ok (_, p) =>
        match read_u16 bo s p with
        | .error e => .error e
        | .ok (idx, p) =>
          match read_u32 bo s p with
          | .error e => .error e
          | .ok (off, p) =>
            match ati2Attrs bo s n p with
            | .error e => .error e
            | .ok (as_, p2) => .ok ((ty, idx, off) :: as_, p2)

/-- msbp.ATI2. -/
def ati2Block (bo : BO) (s : Stream) (pos : Nat) : Exc (List (Nat × Nat × Nat)) :=
  match read_u32 bo s pos with
  | .error e => .error e
  | .ok (count, p) =>
    match ati2Attrs bo s count p with
    | .error e => .error e
    | .ok (as_, _) => .ok as_

/-- The name loop of one ALI2 attribute list: each name offset is
relative to the block start. -/
def ali2Names (enc : LmsEncoding) (s : Stream) (start : Nat) :
    List Nat → Exc (List String)
  | [] => .ok []
  | off :: offs =>
    match readEncoded enc s (-1) (start + off) with
    | .error e => .error e
    | .ok (name, _) =>
      match ali2Names enc s start offs with
      | .error e => .error e
      | .ok ns => .ok (name :: ns)

/-- The list loop of ALI2: each list offset is relative to the block
start; a list is an item count plus name offsets. -/
def ali2Lists (bo : BO) (enc : LmsEncoding) (s : Stream) (start : Nat) :
    List Nat → Exc (List (List String))
  | [] => .ok []
  | off :: offs =>
    match read_u32 bo s (start + off) with
    | .error e => .error e
    | .ok (itemCount, p) =>
      match read_u32s bo s itemCount p with
      | .error e => .error e
      | .ok (nameOffs, _) =>
        match ali2Names enc s start nameOffs with
        | .error e => .error e
        | .ok names =>
          match ali2Lists bo enc s start offs with
          | .error e => .error e
          | .ok ls => .ok (names :: ls)

/-- msbp.ALI2. -/
def ali2Block (bo : BO) (enc : LmsEncoding) (s : Stream) (pos : Nat) :
    Exc (List (List String)) :=
  match read_u32 bo s pos with
  | .error e => .error e
  | .ok (listCount, p) =>
    match read_u32s bo s listCount p with
    | .error e => .error e
    | .ok (offs, _) => ali2Lists bo enc s pos offs

/-- The group loop of TGG2: each offset is relative to the block start;
a group is (group index, tag count, tag indices, name). -/
def tgg2Groups (bo : BO) (enc : LmsEncoding) (s : Stream) (start : Nat) :
    List Nat → Exc (List (Nat × String × List Nat))
  | [] => .ok []
  | off :: offs =>
    match read_u16 bo s (start + off) with
    | .error e => .error e
    | .ok (gidx, p) =>
      match read_u16 bo s p with
      | .error e => .error e
      | .ok (tagCount, p) =>
        match read_u16s bo s tagCount p with
        | .error e => .error e
        | .ok (tagIdxs, p2) =>
          match readEncoded enc s (-1) p2 with
          | .error e => .error e
          | .ok (gname, _) =>
            match tgg2Groups bo enc s start offs with
            | .error e => .error e
            | .ok gs => .ok ((gidx, gname, tagIdxs) :: gs)

/-- msbp.TGG2: 16-bit group count, 16-bit padding, offsets, groups. -/
def tgg2Block (bo : BO) (enc : LmsEncoding) (s : Stream) (pos : Nat) :
    Exc (List (Nat × String × List Nat)) :=
  match read_u16 bo s pos with
  | .error e => .error e
  | .ok (count, p) =>
    match read_u16 bo s p with
    | .error e => .error e
    | .ok (_, p) =>
      match read_u32s bo s count p with
      | .error e => .error e
      | .ok (offs, _) => tgg2Groups bo enc s pos offs

/-- The tag loop of TAG2: a tag is (name, parameter indices). -/
def tag2Tags (bo : BO) (enc : LmsEncoding) (s : Stream) (start : Nat) :
    List Nat → Exc (List (String × List Nat))
  | [] => .ok []
  | off :: offs =>
    match read_u16 bo s (start + off) with
    | .error e => .error e
    | .ok (paramCount, p) =>
      match read_u16s bo s paramCount p with
      | .error e => .error e
      | .ok (paramIdxs, p2) =>
        match readEncoded enc s (-1) p2 with
        | .error e => .error e
        | .ok (tname, _) =>
          match tag2Tags bo enc s start offs with
          | .error e => .error e
          | .ok ts => .ok ((tname, paramIdxs) :: ts)

/-- msbp.TAG2. -/
def tag2Block (bo : BO) (enc : LmsEncoding) (s : Stream) (pos : Nat) :
    Exc (List (String × List Nat)) :=
  match read_u16 bo s pos with
  | .error e => .error e
  | .ok (count, p) =>
    match read_u16 bo s p with
    | .error e => .error e
    | .ok (_, p) =>
      match read_u32s bo s count p with
      | .error e => .error e
      | .ok (offs, _) => tag2Tags bo enc s pos offs

/-- A TGP2 parameter entry.  NULL-typed parameters (type code 9) carry an
inline list of 16-bit items before the name, so they are stored as a
3-tuple in the source where other types are a 2-tuple. -/
inductive TgpEntry where
  | scalar (ptype : Nat) (name : String)
  | withItems (ptype : Nat) (items : List Nat) (name : String)
deriving DecidableEq, Repr

/-- The parameter loop of TGP2. -/
def tgp2Params (bo : BO) (enc : LmsEncoding) (s : Stream) (start : Nat) :
    List Nat → Exc (List TgpEntry)
  | [] => .ok []
  | off :: offs =>
    match read_u8 s (start + off) with
    | .error e => .error e
    | .ok (ptype, p) =>
      if ptype = 9 then
        match read_u8 s p with
        | .error e => .error e
        | .ok (_, p) =>
          match read_u16 bo s p with
          | .error e => .error e
          | .ok (itemCount, p) =>
            match read_u16s bo s itemCount p with
            | .error e => .error e
            | .ok (items, p2) =>
              match readEncoded enc s (-1) p2 with
              | .error e => .error e
              | .ok (pname, _) =>
                match tgp2Params bo enc s start offs with
                | .error e => .error e
                | .ok ps => .ok (.withItems ptype items pname :: ps)
      else
        match readEncoded enc s (-1) p with
        | .error e => .error e
        | .ok (pname, _) =>
          match tgp2Params bo enc s start offs with
          | .error e => .error e
          | .ok ps => .ok (.scalar ptype pname :: ps)

/-- msbp.TGP2. -/
def tgp2Block (bo : BO) (enc : LmsEncoding) (s : Stream) (pos : Nat) :
    Exc (List TgpEntry) :=
  match read_u16 bo s pos with
  | .error e => .error e
  | .ok (count, p) =>
    match read_u16 bo s p with
    | .error e => .error e
    | .ok (_, p) =>
      match read_u32s bo s count p with
      | .error e => .error e
      | .ok (offs, _) => tgp2Params bo enc s pos offs

/-- The item loop of TGL2. -/
def tgl2Items (enc : LmsEncoding) (s : Stream) (start : Nat) :
    List Nat → Exc (List String)
  | [] => .ok []
  | off :: offs =>
    match readEncoded enc s (-1) (start + off) with
    | .error e => .error e
    | .ok (name, _) =>
      match tgl2Items enc s start offs with
      | .error e => .error e
      | .ok ns => .ok (name :: ns)

/-- msbp.TGL2. -/
def tgl2Block (bo : BO) (enc : LmsEncoding) (s : Stream) (pos : Nat) :
    Exc (List String) :=
  match read_u16 bo s pos with
  | .error e => .error e
  | .ok (count, p) =>
    match read_u16 bo s p with
    | .error e => .error e
    | .ok (_, p) =>
      match read_u32s bo s count p with
      | .error e => .error e
      | .ok (offs, _) => tgl2Items enc s pos offs

/-- The style loop of SYL3: after three u32 reads each iteration calls
`reader.read_i32`, an attribute BinaryReader does not define (the method
is `read_s32`), so any nonzero style count raises AttributeError. -/
def syl3Styles (bo : BO) (s : Stream) :
    Nat → Nat → Exc (List (Nat × Nat × Nat × Int) × Nat)
  | 0, pos => .ok ([], pos)
  | _ + 1, pos =>
    match read_u32 bo s pos with
    | .error e => .error e
    | .ok (_regionWidth, p) =>
      match read_u32 bo s p with
      | .error e => .error e
      | .ok (_lineNum, p) =>
        match read_u32 bo s p with
        | .error e => .error e
        | .ok (_fontIdx, _) => .error .attributeError

/-- msbp.SYL3. -/
def syl3Block (bo : BO) (s : Stream) (pos : Nat) :
    Exc (List (Nat × Nat × Nat × Int)) :=
  match read_u32 bo s pos with
  | .error e => .error e
  | .ok (count, p) =>
    match syl3Styles bo s count p with
    | .error e => .error e
    | .ok (sts, _) => .ok sts

/-- The filename loop of CTI1. -/
def cti1Names (enc : LmsEncoding) (s : Stream) (start : Nat) :
    List Nat → Exc (List String)
  | [] => .ok []
  | off :: offs =>
    match readEncoded enc s (-1) (start + off) with
    | .error e => .error e
    | .ok (name, _) =>
      match cti1Names enc s start offs with
      | .error e => .error e
      | .ok ns => .ok (name :: ns)

/-- msbp.CTI1: 32-bit filename count, offsets, names. -/
def cti1Block (bo : BO) (enc : LmsEncoding) (s : Stream) (pos : Nat) :
    Exc (List String) :=
  match read_u32 bo s pos with
  | .error e => .error e
  | .ok (count, p) =>
    match read_u32s bo s count p with
    | .error e => .error e
    | .ok (offs, _) => cti1Names enc s pos offs

/-- The decoded blocks of an MSBP file, keyed by block signature (a later
block of the same signature overwrites the earlier one, as in the Python
dict). -/
structure MsbpBlocks where
  clr1 : Option (List String) := none
  ati2 : Option (List (Nat × Nat × Nat)) := none
  ali2 : Option (List (List String)) := none
  tgg2 : Option (List (Nat × String × List Nat)) := none
  tag2 : Option (List (String × List Nat)) := none
  tgp2 : Option (List TgpEntry) := none
  tgl2 : Option (List String) := none
  syl3 : Option (List (Nat × Nat × Nat × Int)) := none
  cti1 : Option (List String) := none
  clb1 : Option (List Label) := none
  alb1 : Option (List Label) := none
  slb1 : Option (List Label) := none
deriving DecidableEq, Repr

/-- Dispatch one MSBP block payload by signature; an unknown signature
raises NotImplementedError. -/
def msbpDispatch (bo : BO) (enc : LmsEncoding) (s : Stream) (pos : Nat)
    (sig : String) (b : MsbpBlocks) : Exc MsbpBlocks :=
  if sig = "CLR1" then
    match clr1Block bo s pos with
    | .error e => .error e
    | .ok v => .ok {b with clr1 := some v}
  else if sig = "ATI2" then
    match ati2Block bo s pos with
    | .error e => .error e
    | .ok v => .ok {b with ati2 := some v}
  else if sig = "ALI2" then
    match ali2Block bo enc s pos with
    | .error e => .error e
    | .ok v => .ok {b with ali2 := some v}
  else if sig = "TGG2" then
    match tgg2Block bo enc s pos with
    | .error e => .error e
    | .ok v => .ok {b with tgg2 := some v}
  else if sig = "TAG2" then
    match tag2Block bo enc s pos with
    | .error e => .error e
    | .ok v => .ok {b with tag2 := some v}
  else if sig = "TGP2" then
    match tgp2Block bo enc s pos with
    | .error e => .error e
    | .ok v => .ok {b with tgp2 := some v}
  else if sig = "TGL2" then
    match tgl2Block bo enc s pos with
    | .error e => .error e
    | .ok v => .ok {b with tgl2 := some v}
  else if sig = "SYL3" then
    match syl3Block bo s pos with
    | .error e => .error e
    | .ok v => .ok {b with syl3 := some v}
  else if sig = "CTI1" then
    match cti1Block bo enc s pos with
    | .error e => .error e
    | .ok v => .ok {b with cti1 := some v}
  else if sig = "CLB1" then
    match labelBlock bo s pos with
    | .error e => .error e
    | .ok v => .ok {b with clb1 := some v}
  else if sig = "ALB1" then
    match labelBlock bo s pos with
    | .error e => .error e
    | .ok v => .ok {b with alb1 := some v}
  else if sig = "SLB1" then
    match labelBlock bo s pos with
    | .error e => .error e
    | .ok v => .ok {b with slb1 := some v}
  else .error .notImplemented

/-- The MSBP block loop: per block read the 4-byte ASCII signature, the
32-bit declared size and 8 padding bytes, decode the payload, then seek
to `block_start + size + 0x10` and align to the next 16-byte boundary. -/
def msbpBlockLoop (bo : BO) (enc : LmsEncoding) (s : Stream) :
    Nat → Nat → MsbpBlocks → Exc MsbpBlocks
  | 0, _, b => .ok b
  | n + 1, pos, b =>
    match read_string .ascii 1 s 4 (s.length + 1) pos with
    | .error e => .error e
    | .ok (sig, p) =>
      match read_u32 bo s p with
      | .error e => .error e
      | .ok (size, p2) =>
        match readRaw s p2 8 false with
        | .error e => .error e
        | .ok (_, p3) =>
          match msbpDispatch bo enc s p3 sig b with
          | .error e => .error e
          | .ok b2 => msbpBlockLoop bo enc s n (pyAlign (pos + size + 0x10) 0x10) b2

/-- One parameter record of the assembled tag catalog
(`{"name": ..., "type": ...}` in the source). -/
structure TagParam where
  name : String
  ptype : Nat
deriving DecidableEq, Repr

/-- One tag record of the assembled catalog. -/
structure TagEntry where
  name : String
  params : List TagParam
deriving DecidableEq, Repr

/-- One tag group of the assembled catalog. -/
structure TagGroup where
  name : String
  tags : List TagEntry
deriving DecidableEq, Repr

/-- MSBP.data: each section present only when its complementary blocks
were all decoded. -/
structure MsbpData where
  colors : Option (List (String × String)) := none
  tags : Option (List (Nat × TagGroup)) := none
  styles : Option (List (String × (Nat × Nat × Nat × Int))) := none
  filenames : Option (List String) := none
deriving DecidableEq, Repr

/-- The color-assembly loop: `data["colors"][label.name] =
colors[label.idx]` per label (IndexError past the color list). -/
def assembleColors (colors : List String) :
    List Label → List (String × String) → Exc (List (String × String))
  | [], acc => .ok acc
  | lab :: labs, acc =>
    match pyGet colors lab.idx with
    | .error e => .error e
    | .ok c => assembleColors colors labs (dictInsert acc lab.name c)

/-- The parameter-assembly loop of one tag: `params[param_idx]` is
unpacked as a 2-tuple, so a NULL-typed 3-tuple entry raises ValueError. -/
def buildParams (params : List TgpEntry) : List Nat → Exc (List TagParam)
  | [] => .ok []
  | pidx :: rest =>
    match pyGet params pidx with
    | .error e => .error e
    | .ok entry =>
      match entry with
      | .withItems _ _ _ => .error .valueError
      | .scalar ptype pname =>
        match buildParams params rest with
        | .error e => .error e
        | .ok ps => .ok (⟨pname, ptype⟩ :: ps)

/-- The tag-assembly loop of one group. -/
def buildTags (tags : List (String × List Nat)) (params : List TgpEntry) :
    List Nat → Exc (List TagEntry)
  | [] => .ok []
  | tidx :: rest =>
    match pyGet tags tidx with
    | .error e => .error e
    | .ok (tname, tparamIdxs) =>
      match buildParams params tparamIdxs with
      | .error e => .error e
      | .ok ps =>
        match buildTags tags params rest with
        | .error e => .error e
        | .ok ts => .ok (⟨tname, ps⟩ :: ts)

/-- The group-assembly loop: groups land in a dict keyed by their stored
group index. -/
def buildGroups (tags : List (String × List Nat)) (params : List TgpEntry) :
    List (Nat × String × List Nat) → List (Nat × TagGroup) →
    Exc (List (Nat × TagGroup))
  | [], acc => .ok acc
  | (gidx, gname, gtagIdxs) :: gs, acc =>
    match buildTags tags params gtagIdxs with
    | .error e => .error e
    | .ok ts => buildGroups tags params gs (dictInsert acc gidx ⟨gname, ts⟩)

/-- The style-assembly loop. -/
def assembleStyles (styles : List (Nat × Nat × Nat × Int)) :
    List Label → List (String × (Nat × Nat × Nat × Int)) →
    Exc (List (String × (Nat × Nat × Nat × Int)))
  | [], acc => .ok acc
  | lab :: labs, acc =>
    match pyGet styles lab.idx with
    | .error e => .error e
    | .ok st => assembleStyles styles labs (dictInsert acc lab.name st)

/-- The colors section of the assembly: populated only when CLR1 and
CLB1 are both present; otherwise silently skipped. -/
def colorsSectionOf (b : MsbpBlocks) : Exc (Option (List (String × String))) :=
  match b.clr1, b.clb1 with
  | some colors, some labels =>
    match assembleColors colors labels [] with
    | .error e => .error e
    | .ok m => .ok (some m)
  | _, _ => .ok none

/-- The attribute check of the assembly: the triple ATI2+ALB1+ALI2 is
deliberately unimplemented and fatal when complete. -/
def attrCheckOf (b : MsbpBlocks) : Exc Unit :=
  match b.ati2, b.alb1, b.ali2 with
  | some _, some _, some _ => .error .notImplemented
  | _, _, _ => .ok ()

/-- The tags section of the assembly: populated only when TGG2, TAG2,
TGP2 and TGL2 are all present. -/
def tagsSectionOf (b : MsbpBlocks) : Exc (Option (List (Nat × TagGroup))) :=
  match b.tgg2, b.tag2, b.tgp2, b.tgl2 with
  | some groups, some tags, some params, some _ =>
    match buildGroups tags params groups [] with
    | .error e => .error e
    | .ok m => .ok (some m)
  | _, _, _, _ => .ok none

/-- The styles section of the assembly: populated only when SYL3 and
SLB1 are both present. -/
def stylesSectionOf (b : MsbpBlocks) :
    Exc (Option (List (String × (Nat × Nat × Nat × Int)))) :=
  match b.syl3, b.slb1 with
  | some styles, some labels =>
    match assembleStyles styles labels [] with
    | .error e => .error e
    | .ok m => .ok (some m)
  | _, _ => .ok none

/-- The assembly phase of MSBP.__init__, in source order: colors,
attribute check, tags, styles, filenames (CTI1 alone, whenever
present). -/
def msbpAssemble (b : MsbpBlocks) : Exc MsbpData :=
  match colorsSectionOf b with
  | .error e => .error e
  | .ok colorsSection =>
    match attrCheckOf b with
    | .error e => .error e
    | .ok _ =>
      match tagsSectionOf b with
      | .error e => .error e
      | .ok tagsSection =>
        match stylesSectionOf b with
        | .error e => .error e
        | .ok stylesSection =>
          .ok ⟨colorsSection, tagsSection, stylesSection, b.cti1⟩

/-- MSBP.__init__ end to end: header, block loop, assembly.  The decoded
output is the block dict and the assembled data dict. -/
def decodeMSBP (s : Stream) : Exc (MsbpBlocks × MsbpData) :=
  match lmsHeader s "MsgPrjBn" with
  | .error e => .error e
  | .ok (h, p) =>
    match msbpBlockLoop h.bo h.encoding s h.numBlocks p {} with
    | .error e => .error e
    | .ok blocks =>
      match msbpAssemble blocks with
      | .error e => .error e
      | .ok data => .ok (blocks, data)

/-! MSBT message decoder (msbt.py). -/

/-- A decoded control-tag parameter value.  Floats keep their raw IEEE
bit pattern; their textual rendering is presentation only. -/
inductive ParamVal where
  | pnat (n : Nat)
  | pint (i : Int)
  | pf32 (bits : Nat)
  | pstr (str : String)
  | pnone
deriving DecidableEq, Repr

/-- One element of a decoded message: a literal character (possibly the
empty string, when a code unit decodes to nothing, e.g. a BOM) or a
control-tag marker carrying the resolved group name, tag name, the
stored parameter count and the decoded (name, value, type) parameters.
The source renders this sequence into one flat string; the structured
form determines that rendering. -/
inductive MsgItem where
  | lit (str : String)
  | tag (group : String) (tname : String) (paramCount : Nat)
      (params : List (String × ParamVal × Nat))
deriving DecidableEq, Repr

/-- One assignment `tag_list[i]["params"] = ps` of the TXT2 patch: look
the tag up by index (IndexError past the end) and replace its parameter
list. -/
def pySetParams (l : List TagEntry) (i : Nat) (ps : List TagParam) :
    Exc (List TagEntry) :=
  match l[i]? with
  | none => .error .indexError
  | some t => .ok (l.set i {t with params := ps})

/-- TXT2.__init__'s built-in patch of the project catalog: group 0's tags
at indices 0, 2 and 3 get hardcoded parameter schemas (ruby text:
replace/u16 and rt/string; page-wait percent/u16; font index/i16).  A
missing "tags" section or group 0 raises KeyError; a tag list without
index 0, 2 or 3 raises IndexError. -/
def txt2Patch (pd : MsbpData) : Exc (List (Nat × TagGroup)) :=
  match pd.tags with
  | none => .error .keyError
  | some tags =>
    match dictGet? tags 0 with
    | none => .error .keyError
    | some g0 =>
      match pySetParams g0.tags 0 [⟨"replace", 1⟩, ⟨"rt", 8⟩] with
      | .error e => .error e
      | .ok l0 =>
        match pySetParams l0 2 [⟨"percent", 1⟩] with
        | .error e => .error e
        | .ok l2 =>
          match pySetParams l2 3 [⟨"index", 2⟩] with
          | .error e => .error e
          | .ok l3 => .ok (dictInsert tags 0 {g0 with tags := l3})

/-- One parameter read of TXT2.read_tag_string, dispatched on the
parameter type code (0 u8, 1 u16, 2 s16, 5 u32, 6 f32, 8 length-prefixed
string, 9 no value); any other code raises KeyError from the dispatch
dict. -/
def readParamVal (bo : BO) (enc : LmsEncoding) (s : Stream) (ptype pos : Nat) :
    Exc (ParamVal × Nat) :=
  if ptype = 0 then
    match read_u8 s pos with
    | .error e => .error e
    | .ok (v, p) => .ok (.pnat v, p)
  else if ptype = 1 then
    match read_u16 bo s pos with
    | .error e => .error e
    | .ok (v, p) => .ok (.pnat v, p)
  else if ptype = 2 then
    match read_s16 bo s pos with
    | .error e => .error e
    | .ok (v, p) => .ok (.pint v, p)
  else if ptype = 5 then
    match read_u32 bo s pos with
    | .error e => .error e
    | .ok (v, p) => .ok (.pnat v, p)
  else if ptype = 6 then
    match read_f32bits bo s pos with
    | .error e => .error e
    | .ok (v, p) => .ok (.pf32 v, p)
  else if ptype = 8 then
    match read_u16 bo s pos with
    | .error e => .error e
    | .ok (len, p) =>
      match read_string (encPair enc).1 (encPair enc).2 s len (s.length + 1) p with
      | .error e => .error e
      | .ok (str, p2) => .ok (.pstr str, p2)
  else if ptype = 9 then .ok (.pnone, pos)
  else .error .keyError

/-- The parameter-decoding loop of TXT2.read_tag_string: one read per
schema entry in schema order. -/
def readParams (bo : BO) (enc : LmsEncoding) (s : Stream) :
    List TagParam → Nat → Exc (List (String × ParamVal × Nat) × Nat)
  | [], pos => .ok ([], pos)
  | prm :: rest, pos =>
    match readParamVal bo enc s prm.ptype pos with
    | .error e => .error e
    | .ok (v, p) =>
      match readParams bo enc s rest p with
      | .error e => .error e
      | .ok (vs, p2) => .ok ((prm.name, v, prm.ptype) :: vs, p2)

/-- TXT2.read_tag_string: read one code unit at a time in the container
encoding; a null ends the message, the control unit 0x0E introduces a
tag (group index, type index, stored parameter count, then parameters
decoded per the catalog schema), anything else is literal text. -/
def readTagString (bo : BO) (enc : LmsEncoding) (tags : List (Nat × TagGroup))
    (s : Stream) : Nat → Nat → List MsgItem → Exc (List MsgItem × Nat)
  | 0, _, _ => .error .fuelExhausted
  | fuel + 1, pos, acc =>
    match readRaw s pos (encPair enc).2 false with
    | .error e => .error e
    | .ok (chunk, p) =>
      match pyDecode (encPair enc).1 chunk with
      | none => .error .unicodeError
      | some ch =>
        if ch = "\x00" then .ok (acc, p)
        else if ch = "\x0e" then
          match read_u16 bo s p with
          | .error e => .error e
          | .ok (gidx, p) =>
            match read_u16 bo s p with
            | .error e => .error e
            | .ok (tidx, p) =>
              match dictGet? tags gidx with
              | none => .error .keyError
              | some tagGroup =>
                match tagGroup.tags.get? tidx with
                | none => .error .indexError
                | some tag =>
                  match read_u16 bo s p with
                  | .error e => .error e
                  | .ok (paramCount, p) =>
                    match readParams bo enc s tag.params p with
                    | .error e => .error e
                    | .ok (params, p2) =>
                      readTagString bo enc tags s fuel p2
                        (acc ++ [.tag tagGroup.name tag.name paramCount params])
        else readTagString bo enc tags s fuel p (acc ++ [.lit ch])

/-- The message loop of TXT2: each message offset is relative to the
block start. -/
def txt2Messages (bo : BO) (enc : LmsEncoding) (tags : List (Nat × TagGroup))
    (s : Stream) (start : Nat) : List Nat → Exc (List (List MsgItem))
  | [] => .ok []
  | off :: offs =>
    match readTagString bo enc tags s (s.length + 1) (start + off) [] with
    | .error e => .error e
    | .ok (msg, _) =>
      match txt2Messages bo enc tags s start offs with
      | .error e => .error e
      | .ok ms => .ok (msg :: ms)

/-- msbt.TXT2.__init__: patch the shared catalog first, then read the
message count, offsets and messages. -/
def txt2Block (bo : BO) (enc : LmsEncoding) (s : Stream) (pos : Nat)
    (pd : MsbpData) : Exc (List (List MsgItem)) :=
  match txt2Patch pd with
  | .error e => .error e
  | .ok tags =>
    match read_u32 bo s pos with
    | .error e => .error e
    | .ok (messageCount, p) =>
      match read_u32s bo s messageCount p with
      | .error e => .error e
      | .ok (offs, _) => txt2Messages bo enc tags s pos offs

/-- The decoded blocks of an MSBT file. -/
structure MsbtBlocks where
  lbl1 : Option (List Label) := none
  txt2 : Option (List (List MsgItem)) := none
deriving DecidableEq, Repr

/-- Dispatch one MSBT block payload by signature; an unknown signature is
fatal via Log.error. -/
def msbtDispatch (bo : BO) (enc : LmsEncoding) (s : Stream) (pos : Nat)
    (pd : MsbpData) (sig : String) (b : MsbtBlocks) : Exc MsbtBlocks :=
  if sig = "LBL1" then
    match labelBlock bo s pos with
    | .error e => .error e
    | .ok v => .ok {b with lbl1 := some v}
  else if sig = "TXT2" then
    match txt2Block bo enc s pos pd with
    | .error e => .error e
    | .ok v => .ok {b with txt2 := some v}
  else .error .logError

/-- The MSBT block loop, identical in shape to the MSBP one. -/
def msbtBlockLoop (bo : BO) (enc : LmsEncoding) (s : Stream) (pd : MsbpData) :
    Nat → Nat → MsbtBlocks → Exc MsbtBlocks
  | 0, _, b => .ok b
  | n + 1, pos, b =>
    match read_string .ascii 1 s 4 (s.length + 1) pos with
    | .error e => .error e
    | .ok (sig, p) =>
      match read_u32 bo s p with
      | .error e => .error e
      | .ok (size, p2) =>
        match readRaw s p2 8 false with
        | .error e => .error e
        | .ok (_, p3) =>
          match msbtDispatch bo enc s p3 pd sig b with
          | .error e => .error e
          | .ok b2 =>
            msbtBlockLoop bo enc s pd n (pyAlign (pos + size + 0x10) 0x10) b2

/-- The label/message association loop of MSBT.__init__:
`data[label.name] = messages[label.idx]` per (index-sorted) label. -/
def msbtAssembleLoop (messages : List (List MsgItem)) :
    List Label → List (String × List MsgItem) →
    Exc (List (String × List MsgItem))
  | [], acc => .ok acc
  | lab :: labs, acc =>
    match pyGet messages lab.idx with
    | .error e => .error e
    | .ok msg => msbtAssembleLoop messages labs (dictInsert acc lab.name msg)

/-- The assembly phase of MSBT.__init__: the data dict is filled only
when both LBL1 and TXT2 decoded. -/
def msbtAssemble (b : MsbtBlocks) : Exc (List (String × List MsgItem)) :=
  match b.lbl1, b.txt2 with
  | some labels, some messages => msbtAssembleLoop messages labels []
  | _, _ => .ok []

/-- MSBT.__init__ end to end: header (signature "MsgStdBn"), block loop
against the supplied project data, assembly. -/
def decodeMSBT (s : Stream) (pd : MsbpData) :
    Exc (MsbtBlocks × List (String × List MsgItem)) :=
  match lmsHeader s "MsgStdBn" with
  | .error e => .error e
  | .ok (h, p) =>
    match msbtBlockLoop h.bo h.encoding s pd h.numBlocks p {} with
    | .error e => .error e
    | .ok blocks =>
      match msbtAssemble blocks with
      | .error e => .error e
      | .ok data => .ok (blocks, data)

/-! Concrete byte streams used by the claim theorems and witnesses. -/

/-- The compressed stream of the spec's Yaz0 example:
"Yaz0" + BE32(4) + 8 reserved zero bytes + control byte 0xF0 + the four
literals of "ABCD". -/
def yaz0AbcdStream : Stream :=
  [0x59, 0x61, 0x7A, 0x30, 0, 0, 0, 4, 0, 0, 0, 0, 0, 0, 0, 0,
   0xF0, 0x41, 0x42, 0x43, 0x44]

/-- A minimal valid Yaz0-compressed SARC archive (an empty little-endian
archive of 0x28 bytes, compressed as five all-literal groups). -/
def szsCompStream : Stream :=
  [0x59, 0x61, 0x7A, 0x30, 0x00, 0x00, 0x00, 0x28,
   0x00, 0x00, 0x00, 0x00, 0x00, 0x00, 0x00, 0x00,
   0xFF, 0x53, 0x41, 0x52, 0x43, 0x14, 0x00, 0xFF, 0xFE,
   0xFF, 0x28, 0x00, 0x00, 0x00, 0x28, 0x00, 0x00, 0x00,
   0xFF, 0x00, 0x01, 0x00, 0x00, 0x53, 0x46, 0x41, 0x54,
   0xFF, 0x0C, 0x00, 0x00, 0x00, 0x00, 0x00, 0x00, 0x00,
   0xFF, 0x53, 0x46, 0x4E, 0x54, 0x08, 0x00, 0x00, 0x00]

/-- The BYML document of claim C1: little-endian, a one-entry hash-key
string table ["key"] at 0x10, no general string table, and a root hash
node at 0x20 with one inline I32 entry holding 42 under key index 0. -/
def c1DocStream : Stream :=
  [0x59, 0x42, 0x01, 0x00, 0x10, 0, 0, 0, 0, 0, 0, 0, 0x20, 0, 0, 0,
   0xC2, 0x01, 0, 0, 0x08, 0, 0, 0, 0x6B, 0x65, 0x79, 0x00, 0, 0, 0, 0,
   0xC1, 0x01, 0, 0, 0x00, 0x00, 0x00, 0xD1, 0x2A, 0, 0, 0]

/-- A minimal MSBP file: the 0x20-byte header (little-endian, UTF-8,
version 3, zero blocks) and nothing else.  The file-size field at 0x12
holds 0x20. -/
def msbpMinStream : Stream :=
  [0x4D, 0x73, 0x67, 0x50, 0x72, 0x6A, 0x42, 0x6E, 0xFF, 0xFE, 0, 0, 0, 3,
   0, 0, 0, 0, 0x20, 0, 0, 0, 0, 0, 0, 0, 0, 0, 0, 0, 0, 0]

/-- The same minimal MSBP file with a different value in the declared
file-size field at offset 0x12. -/
def msbpMinStream2 : Stream :=
  [0x4D, 0x73, 0x67, 0x50, 0x72, 0x6A, 0x42, 0x6E, 0xFF, 0xFE, 0, 0, 0, 3,
   0, 0, 0, 0, 0xAB, 0xCD, 0xEF, 0x42, 0, 0, 0, 0, 0, 0, 0, 0, 0, 0]

/-- A minimal MSBT file: the 0x20-byte header (signature "MsgStdBn") and
zero blocks. -/
def msbtMinStream : Stream :=
  [0x4D, 0x73, 0x67, 0x53, 0x74, 0x64, 0x42, 0x6E, 0xFF, 0xFE, 0, 0, 0, 3,
   0, 0, 0, 0, 0x20, 0, 0, 0, 0, 0, 0, 0, 0, 0, 0, 0, 0, 0]

/-- The same minimal MSBT file with a different declared file size. -/
def msbtMinStream2 : Stream :=
  [0x4D, 0x73, 0x67, 0x53, 0x74, 0x64, 0x42, 0x6E, 0xFF, 0xFE, 0, 0, 0, 3,
   0, 0, 0, 0, 0x99, 0x88, 0x77, 0x66, 0, 0, 0, 0, 0, 0, 0, 0, 0, 0]

/-- A concrete four-tag group for the C5 witness. -/
def c5Group : TagGroup :=
  ⟨"Sys", [⟨"Ruby", []⟩, ⟨"Font", []⟩, ⟨"Size", []⟩, ⟨"Color", [⟨"old", 5⟩]⟩]⟩

/-- A concrete group-0 catalog for the C5 witness. -/
def c5Catalog : List (Nat × TagGroup) := [(0, c5Group)]

/-- A label-block payload whose three labels carry indices [2, 0, 1] in
file order: one group of three labels at relative offset 12, names "a",
"b", "c". -/
def c6LabelStream : Stream :=
  [0x01, 0, 0, 0,
   0x03, 0, 0, 0, 0x0C, 0, 0, 0,
   0x01, 0x61, 0x02, 0, 0, 0,
   0x01, 0x62, 0x00, 0, 0, 0,
   0x01, 0x63, 0x01, 0, 0, 0]

/-- Two streams that are byte-identical except possibly in the declared
file-size field of the localization-container header (the u32 at offsets
0x12..0x15). -/
def Agree (s t : Stream) : Prop :=
  s.length = t.length ∧ ∀ i, i < 0x12 ∨ 0x16 ≤ i → s[i]? = t[i]?

/-! Supporting lemmas for the Yaz0 claims. -/

/-- The back-reference copy loop only overwrites cells of the fixed-size
buffer, so it preserves the buffer length. -/
theorem yaz0Copy_length (n : Nat) :
    ∀ (dst : List Nat) (ci : Int) (di : Nat) (dst2 : List Nat) (di2 : Nat),
      yaz0Copy n dst ci di = .ok (dst2, di2) → dst2.length = dst.length := by
  induction n with
  | zero =>
    intro dst ci di dst2 di2 h
    simp only [yaz0Copy] at h
    cases h
    rfl
  | succ m ih =>
    intro dst ci di dst2 di2 h
    simp only [yaz0Copy] at h
    cases hg : pyGetI dst ci with
    | error e => simp only [hg] at h; exact Except.noConfusion h
    | ok v =>
      simp only [hg] at h
      by_cases hlt : di < dst.length
      · rw [if_pos hlt] at h
        have := ih (dst.set di v) (ci + 1) (di + 1) dst2 di2 h
        simpa using this
      · rw [if_neg hlt] at h
        cases h

/-- The main Yaz0 loop never changes the length of the destination
buffer: it only returns it, sets cells of it, or hands it to the copy
loop. -/
theorem yaz0Loop_length (data : List Nat) (size : Nat) :
    ∀ (fuel si di cb cbc : Nat) (dst out : List Nat),
      yaz0Loop data size fuel si di cb cbc dst = .ok out →
      out.length = dst.length := by
  intro fuel
  induction fuel with
  | zero =>
    intro si di cb cbc dst out h
    simp only [yaz0Loop] at h
    exact Except.noConfusion h
  | succ m ih =>
    intro si di cb cbc dst out h
    simp only [yaz0Loop] at h
    split at h
    · cases h; rfl
    · cases hf : yaz0Fetch data si cb cbc with
      | error e => simp only [hf] at h; exact Except.noConfusion h
      | ok t =>
        obtain ⟨cb1, si1, cbc1⟩ := t
        simp only [hf] at h
        split at h
        · -- literal copy branch
          cases hg : pyGet data si1 with
          | error e => simp only [hg] at h; exact Except.noConfusion h
          | ok b =>
            simp only [hg] at h
            by_cases hlt : di < dst.length
            · rw [if_pos hlt] at h
              have := ih (si1 + 1) (di + 1) (cb1 <<< 1) (cbc1 - 1) (dst.set di b) out h
              simpa using this
            · rw [if_neg hlt] at h
              cases h
        · -- back-reference branch
          cases hg1 : pyGet data si1 with
          | error e => simp only [hg1] at h; exact Except.noConfusion h
          | ok b1 =>
            simp only [hg1] at h
            cases hg2 : pyGet data (si1 + 1) with
            | error e => simp only [hg2] at h; exact Except.noConfusion h
            | ok b2 =>
              simp only [hg2] at h
              cases hn : yaz0NumBytes data b1 (si1 + 2) with
              | error e => simp only [hn] at h; exact Except.noConfusion h
              | ok t2 =>
                obtain ⟨nb, si3⟩ := t2
                simp only [hn] at h
                cases hc : yaz0Copy nb dst
                    ((di : Int) - ((((Nat.land b1 0xF) <<< 8 ||| b2) : Nat) + 1 : Int)) di with
                | error e => simp only [hc] at h; exact Except.noConfusion h
                | ok r =>
                  obtain ⟨dst2, di2⟩ := r
                  simp only [hc] at h
                  have h1 := ih si3 di2 (cb1 <<< 1) (cbc1 - 1) dst2 out h
                  have h2 := yaz0Copy_length nb dst _ di dst2 di2 hc
                  omega

/-- C3: for every well-formed compressed stream the decompressor's output
length equals the declared big-endian 32-bit size at offset 4 (the
destination buffer is allocated at that size and only ever overwritten in
place), and the concrete stream "Yaz0"+BE32(4)+8 zero bytes+0xF0+"ABCD"
decompresses to exactly the four bytes of "ABCD". -/
theorem C3_yaz0_length_equals_declared :
    (∀ (src out : Stream), yaz0Decompress src = .ok out →
      out.length = beVal (sliceN src 4 4)) ∧
    yaz0Decompress yaz0AbcdStream = .ok [0x41, 0x42, 0x43, 0x44] := by
  constructor
  · intro src out h
    unfold yaz0Decompress at h
    split at h
    · exact Except.noConfusion h
    · split at h
      · exact Except.noConfusion h
      · have := yaz0Loop_length (src.drop 0x10) (beVal (sliceN src 4 4))
          (beVal (sliceN src 4 4) + 1) 0 0 0 0
          (List.replicate (beVal (sliceN src 4 4)) 0) out h
        simpa using this
  · decide

/-- Witness for C3 at the concrete ABCD stream. -/
theorem C3_yaz0_length_equals_declared_witness :
    ([0x41, 0x42, 0x43, 0x44] : List Nat).length =
      beVal (sliceN yaz0AbcdStream 4 4) :=
  C3_yaz0_length_equals_declared.1 yaz0AbcdStream [0x41, 0x42, 0x43, 0x44]
    (by decide)

/-- A nonnegative Python index within bounds reads the addressed cell. -/
theorem pyGetI_nat (l : List Nat) (i : Nat) (v : Nat)
    (hlt : i < l.length) (hv : l[i]? = some v) :
    pyGetI l (i : Int) = .ok v := by
  unfold pyGetI
  have h0 : ¬((i : Int) < 0) := by omega
  rw [if_neg h0]
  have hcond : (0 : Int) ≤ (i : Int) ∧ (i : Int) < l.length := by
    constructor
    · omega
    · exact_mod_cast hlt
  rw [if_pos hcond]
  simp only [Int.toNat_ofNat]
  rw [List.get?_eq_getElem?, hv]

/-- C4: a back-reference with distance 0 copies the single byte just
before the write position, repeated `len` times — the copy source starts
at `output_position - (distance + 1)` and advances byte by byte into the
region being written.  Positions outside the written run are untouched. -/
theorem C4_backref_distance_zero_repeats :
    ∀ (len : Nat) (dst : List Nat) (pos v : Nat),
      1 ≤ pos → pos + len ≤ dst.length → dst[pos - 1]? = some v →
      ∃ dst2, yaz0Copy len dst ((pos : Int) - ((0 : Int) + 1)) pos =
          .ok (dst2, pos + len) ∧
        (∀ i, i < len → dst2[pos + i]? = some v) ∧
        (∀ j, j < pos ∨ pos + len ≤ j → dst2[j]? = dst[j]?) := by
  intro len
  induction len with
  | zero =>
    intro dst pos v h1 h2 h3
    refine ⟨dst, ?_, ?_, ?_⟩
    · simp [yaz0Copy]
    · intro i hi; omega
    · intro j hj; rfl
  | succ m ih =>
    intro dst pos v h1 h2 h3
    have hposlt : pos < dst.length := by omega
    have hidx : ((pos : Int) - ((0 : Int) + 1)) = ((pos - 1 : Nat) : Int) := by
      omega
    have hget : pyGetI dst ((pos : Int) - ((0 : Int) + 1)) = .ok v := by
      rw [hidx]
      exact pyGetI_nat dst (pos - 1) v (by omega) h3
    have hsetlen : (dst.set pos v).length = dst.length := by
      simp
    have h3b : (dst.set pos v)[(pos + 1) - 1]? = some v := by
      have : (pos + 1) - 1 = pos := by omega
      rw [this]
      simp [List.getElem?_set, hposlt]
    obtain ⟨dst2, hok, hrep, hout⟩ :=
      ih (dst.set pos v) (pos + 1) v (by omega) (by omega) h3b
    refine ⟨dst2, ?_, ?_, ?_⟩
    · simp only [yaz0Copy, hget]
      rw [if_pos hposlt]
      have harg : ((pos : Int) - ((0 : Int) + 1)) + 1 =
          ((pos + 1 : Nat) : Int) - ((0 : Int) + 1) := by omega
      rw [harg]
      have hfin : (pos + 1) + m = pos + (m + 1) := by omega
      rw [← hfin]
      exact hok
    · intro i hi
      match i with
      | 0 =>
        have := hout pos (Or.inl (by omega))
        rw [Nat.add_zero, this]
        simp [List.getElem?_set, hposlt]
      | k + 1 =>
        have : pos + (k + 1) = (pos + 1) + k := by omega
        rw [this]
        exact hrep k (by omega)
    · intro j hj
      have hj2 : j < pos + 1 ∨ (pos + 1) + m ≤ j := by omega
      have hne : pos ≠ j := by omega
      rw [hout j hj2]
      simp [List.getElem?_set, hne]

/-- Witness for C4: on the buffer [7,0,0,0] at position 1 a distance-0
copy of length 3 repeats 7 three times. -/
theorem C4_backref_distance_zero_repeats_witness :
    ∃ dst2, yaz0Copy 3 [7, 0, 0, 0] ((1 : Int) - ((0 : Int) + 1)) 1 =
        .ok (dst2, 1 + 3) ∧
      (∀ i, i < 3 → dst2[1 + i]? = some 7) ∧
      (∀ j, j < 1 ∨ 1 + 3 ≤ j → dst2[j]? = ([7, 0, 0, 0] : List Nat)[j]?) :=
  C4_backref_distance_zero_repeats 3 [7, 0, 0, 0] 1 7 (by decide) (by decide)
    (by decide)

/-- C2: the compressed-archive class is not the decompress-then-parse
composition the spec claims: `szs.py` references `yaz0.decompress`, an
attribute the `yaz0` module does not define, so every construction raises
AttributeError — including on a stream whose decompress-then-parse
composition succeeds. -/
theorem C2_szs_always_raises :
    (∀ stream : Stream, szsDecode stream = .error .attributeError) ∧
    szsIntended szsCompStream = .ok [] ∧
    szsDecode szsCompStream = .error .attributeError := by
  refine ⟨fun _ => rfl, by decide, rfl⟩

/-- C1: decoding the one-level map document {"key": 42} raises
AttributeError instead of producing the map — `read_container_entry`
builds its dispatch table from `reader.read_i32` / `reader.read_i64`,
attributes BinaryReader does not define — while the hash-key string
table itself decodes to ["key"]. -/
theorem C1_byml_map_decode_crashes :
    bymlDecode c1DocStream = .error .attributeError ∧
    bymlStringTable .little c1DocStream 0x10 = .ok (some ["key"]) := by
  exact ⟨rfl, by decide⟩

/-! Dictionary and list helper lemmas. -/

/-- Inserting a binding makes it the one the key retrieves. -/
theorem dictGet?_insert {κ ν : Type} [DecidableEq κ]
    (d : List (κ × ν)) (k : κ) (v : ν) :
    dictGet? (dictInsert d k v) k = some v := by
  induction d with
  | nil => simp [dictInsert, dictGet?]
  | cons hd tl ih =>
    obtain ⟨k0, v0⟩ := hd
    by_cases h : k0 = k
    · simp [dictInsert, dictGet?, h]
    · simp [dictInsert, dictGet?, h, ih]

/-- Re-inserting the binding a key already holds leaves the dict
unchanged. -/
theorem dictInsert_self {κ ν : Type} [DecidableEq κ]
    (d : List (κ × ν)) (k : κ) (v : ν) (h : dictGet? d k = some v) :
    dictInsert d k v = d := by
  induction d with
  | nil => simp [dictGet?] at h
  | cons hd tl ih =>
    obtain ⟨k0, v0⟩ := hd
    by_cases hk : k0 = k
    · simp only [dictGet?, if_pos hk] at h
      cases h
      simp [dictInsert, hk]
    · simp only [dictGet?, if_neg hk] at h
      simp [dictInsert, hk, ih h]

/-- Setting a cell to the value it already holds leaves the list
unchanged. -/
theorem list_set_same {α : Type} (l : List α) (i : Nat) (a : α)
    (h : l[i]? = some a) : l.set i a = l := by
  apply List.ext_getElem?
  intro j
  rw [List.getElem?_set]
  by_cases hij : i = j
  · subst hij
    rw [if_pos rfl]
    have hlt : i < l.length := by
      by_contra hge
      rw [List.getElem?_eq_none (by omega)] at h
      exact Option.noConfusion h
    rw [if_pos hlt, h]
  · rw [if_neg hij]

/-- C5 counterexample: a decoded catalog whose tag group 0 exists but
holds a single tag makes the built-in patch raise IndexError, so no
patched catalog exposing the ruby schema is produced at all. -/
theorem C5_patch_counterexample :
    txt2Patch {tags := some [(0, ⟨"g", [⟨"t", []⟩]⟩)]} =
      .error .indexError := by decide

/-- C5 (amended): when tag group 0 exists and its tag list has at least
four entries, the patch succeeds, exposes exactly the 2-parameter schema
replace/u16, rt/string at (group 0, tag 0) regardless of the previous
parameters, and applying it a second time returns the identical
catalog. -/
theorem C5_patch_ruby_schema_and_idempotent :
    ∀ (pd : MsbpData) (tags : List (Nat × TagGroup)) (g0 : TagGroup),
      pd.tags = some tags → dictGet? tags 0 = some g0 → 4 ≤ g0.tags.length →
      ∃ (tags2 : List (Nat × TagGroup)) (g2 : TagGroup),
        txt2Patch pd = .ok tags2 ∧
        dictGet? tags2 0 = some g2 ∧
        (∃ t0, g2.tags[0]? = some t0 ∧
          t0.params = [⟨"replace", 1⟩, ⟨"rt", 8⟩]) ∧
        txt2Patch {pd with tags := some tags2} = .ok tags2 := by
  intro pd tags g0 hpd hg0 hlen
  obtain ⟨t0, ht0⟩ : ∃ t0, g0.tags[0]? = some t0 :=
    ⟨_, List.getElem?_eq_getElem (by omega)⟩
  have hs0 : pySetParams g0.tags 0 [⟨"replace", 1⟩, ⟨"rt", 8⟩] =
      .ok (g0.tags.set 0 {t0 with params := [⟨"replace", 1⟩, ⟨"rt", 8⟩]}) := by
    unfold pySetParams
    rw [ht0]
  set l0 : List TagEntry :=
    g0.tags.set 0 {t0 with params := [⟨"replace", 1⟩, ⟨"rt", 8⟩]} with hl0
  have hl0len : l0.length = g0.tags.length := by rw [hl0]; simp
  obtain ⟨t2, ht2⟩ : ∃ t2, l0[2]? = some t2 :=
    ⟨_, List.getElem?_eq_getElem (by omega)⟩
  have hs2 : pySetParams l0 2 [⟨"percent", 1⟩] =
      .ok (l0.set 2 {t2 with params := [⟨"percent", 1⟩]}) := by
    unfold pySetParams
    rw [ht2]
  set l2 : List TagEntry := l0.set 2 {t2 with params := [⟨"percent", 1⟩]}
    with hl2
  have hl2len : l2.length = g0.tags.length := by rw [hl2]; simp [hl0len]
  obtain ⟨t3, ht3⟩ : ∃ t3, l2[3]? = some t3 :=
    ⟨_, List.getElem?_eq_getElem (by omega)⟩
  have hs3 : pySetParams l2 3 [⟨"index", 2⟩] =
      .ok (l2.set 3 {t3 with params := [⟨"index", 2⟩]}) := by
    unfold pySetParams
    rw [ht3]
  set l3 : List TagEntry := l2.set 3 {t3 with params := [⟨"index", 2⟩]} with hl3
  set g2 : TagGroup := {g0 with tags := l3} with hg2
  set tags2 : List (Nat × TagGroup) := dictInsert tags 0 g2 with htags2
  have hpatch1 : txt2Patch pd = .ok tags2 := by
    unfold txt2Patch
    rw [hpd]
    simp only []
    rw [hg0]
    simp only []
    rw [hs0]
    simp only []
    rw [hs2]
    simp only []
    rw [hs3]
  have hget2 : dictGet? tags2 0 = some g2 := by
    rw [htags2]
    exact dictGet?_insert tags 0 g2
  have h0lt : 0 < g0.tags.length := by omega
  have h2lt : 2 < l0.length := by omega
  have h3lt : 3 < l2.length := by omega
  have hl3get0 : l3[0]? =
      some {t0 with params := [⟨"replace", 1⟩, ⟨"rt", 8⟩]} := by
    rw [hl3, hl2, hl0]
    simp [List.getElem?_set, h0lt]
  have hl3get2 : l3[2]? = some {t2 with params := [⟨"percent", 1⟩]} := by
    rw [hl3, hl2]
    simp [List.getElem?_set, h2lt]
  have hl3get3 : l3[3]? = some {t3 with params := [⟨"index", 2⟩]} := by
    rw [hl3]
    simp [List.getElem?_set, h3lt]
  have hg2tags : g2.tags = l3 := by rw [hg2]
  refine ⟨tags2, g2, hpatch1, hget2,
    ⟨{t0 with params := [⟨"replace", 1⟩, ⟨"rt", 8⟩]},
      by rw [hg2tags]; exact hl3get0, rfl⟩, ?_⟩
  -- idempotence: the second application rewrites the same cells with the
  -- same records (re-assigning `params` to a record whose `params` is
  -- already that list is the identity)
  have hs0b : pySetParams l3 0 [⟨"replace", 1⟩, ⟨"rt", 8⟩] = .ok l3 := by
    unfold pySetParams
    rw [hl3get0]
    simp only []
    rw [list_set_same l3 0 _ hl3get0]
  have hs2b : pySetParams l3 2 [⟨"percent", 1⟩] = .ok l3 := by
    unfold pySetParams
    rw [hl3get2]
    simp only []
    rw [list_set_same l3 2 _ hl3get2]
  have hs3b : pySetParams l3 3 [⟨"index", 2⟩] = .ok l3 := by
    unfold pySetParams
    rw [hl3get3]
    simp only []
    rw [list_set_same l3 3 _ hl3get3]
  unfold txt2Patch
  simp only []
  rw [hget2]
  simp only []
  rw [hs0b]
  simp only []
  rw [hs2b]
  simp only []
  rw [hs3b]
  simp only []
  show Except.ok (dictInsert tags2 0 g2) = Except.ok tags2
  rw [dictInsert_self tags2 0 g2 hget2]

/-- Witness for the amended C5 at a concrete four-tag catalog. -/
theorem C5_patch_ruby_schema_and_idempotent_witness :
    ∃ (tags2 : List (Nat × TagGroup)) (g2 : TagGroup),
      txt2Patch {tags := some c5Catalog} = .ok tags2 ∧
      dictGet? tags2 0 = some g2 ∧
      (∃ t0, g2.tags[0]? = some t0 ∧
        t0.params = [⟨"replace", 1⟩, ⟨"rt", 8⟩]) ∧
      txt2Patch {({tags := some c5Catalog} : MsbpData) with
        tags := some tags2} = .ok tags2 :=
  C5_patch_ruby_schema_and_idempotent {tags := some c5Catalog} c5Catalog
    c5Group rfl (by decide) (by decide)

/-- C6: every successfully decoded label block is sorted ascending by the
stored index field, and the concrete block with file-order indices
[2, 0, 1] decodes to index order [0, 1, 2]. -/
theorem C6_labels_sorted_by_index :
    (∀ (bo : BO) (s : Stream) (pos : Nat) (labels : List Label),
       labelBlock bo s pos = .ok labels → labels.Pairwise labelLE) ∧
    labelBlock .little c6LabelStream 0 =
      .ok [⟨"b", 0⟩, ⟨"c", 1⟩, ⟨"a", 2⟩] := by
  constructor
  · intro bo s pos labels h
    unfold labelBlock at h
    cases h1 : read_u32 bo s pos with
    | error e => simp only [h1] at h; exact Except.noConfusion h
    | ok t =>
      obtain ⟨groupCount, p⟩ := t
      simp only [h1] at h
      cases h2 : labelGroupHeaders bo s groupCount p with
      | error e => simp only [h2] at h; exact Except.noConfusion h
      | ok t2 =>
        obtain ⟨groups, p2⟩ := t2
        simp only [h2] at h
        cases h3 : labelsOfGroups bo s pos groups with
        | error e => simp only [h3] at h; exact Except.noConfusion h
        | ok raw =>
          simp only [h3] at h
          cases h
          exact List.sorted_insertionSort labelLE raw
  · decide

/-- Witness for C6 at the concrete [2,0,1] block. -/
theorem C6_labels_sorted_by_index_witness :
    ([⟨"b", 0⟩, ⟨"c", 1⟩, ⟨"a", 2⟩] : List Label).Pairwise labelLE :=
  C6_labels_sorted_by_index.1 .little c6LabelStream 0 _
    C6_labels_sorted_by_index.2

/-- C7: the fixed-size read_string truncates `out[:i]` at the code-unit
index i instead of the byte index, so the UTF-16 field
41 00 42 00 00 00 of size 6 decodes to "A" although its content
truncated at the first null code unit is 41 00 42 00, i.e. "AB". -/
theorem C7_fixed_read_string_truncates_wrong :
    readStringFixed .utf16 2 [0x41, 0, 0x42, 0, 0, 0] 6 0 = .ok ("A", 6) ∧
    specNullTruncate 2 6 [0x41, 0, 0x42, 0, 0, 0] = [0x41, 0, 0x42, 0] ∧
    pyDecode .utf16 [0x41, 0, 0x42, 0] = some "AB" ∧
    ("A" : String) ≠ "AB" := by
  refine ⟨by decide, by decide, by decide, by decide⟩

/-- C9: a boolean node with nonzero raw value other than 1 decodes to
true in both diagnostic modes, emitting exactly one soft-validation
message when diagnostics are on (quiet = false) and none when off; the
decoded value and final position are identical in both modes. -/
theorem C9_bool_node_warning_modes :
    ∀ (bo : BO) (s : Stream) (pos v p : Nat),
      read_u32 bo s pos = .ok (v, p) → v ≠ 0 → v ≠ 1 →
      bymlReadBoolNode bo s pos false = .ok (true, p, 1) ∧
      bymlReadBoolNode bo s pos true = .ok (true, p, 0) := by
  intro bo s pos v p h hv0 hv1
  constructor
  · unfold bymlReadBoolNode
    rw [h]
    simp [hv0, hv1]
  · unfold bymlReadBoolNode
    rw [h]
    simp [hv0, hv1]

/-- Witness for C9 at raw value 2 (little-endian bytes 02 00 00 00). -/
theorem C9_bool_node_warning_modes_witness :
    bymlReadBoolNode .little [2, 0, 0, 0] 0 false = .ok (true, 4, 1) ∧
    bymlReadBoolNode .little [2, 0, 0, 0] 0 true = .ok (true, 4, 0) :=
  C9_bool_node_warning_modes .little [2, 0, 0, 0] 0 2 4 (by decide)
    (by decide) (by decide)

/-! Supporting lemmas for C8: section gating of the MSBP assembly. -/

/-- The colors section is present exactly when CLR1 and CLB1 both
decoded. -/
theorem colorsSectionOf_isSome (b : MsbpBlocks)
    (o : Option (List (String × String))) (h : colorsSectionOf b = .ok o) :
    o.isSome ↔ (b.clr1.isSome ∧ b.clb1.isSome) := by
  unfold colorsSectionOf at h
  cases h1 : b.clr1 <;> cases h2 : b.clb1 <;> simp only [h1, h2] at h
  · injection h with h; subst h; simp
  · injection h with h; subst h; simp
  · injection h with h; subst h; simp
  · split at h
    · exact Except.noConfusion h
    · injection h with h; subst h; simp

/-- The tags section is present exactly when TGG2, TAG2, TGP2 and TGL2
all decoded. -/
theorem tagsSectionOf_isSome (b : MsbpBlocks)
    (o : Option (List (Nat × TagGroup))) (h : tagsSectionOf b = .ok o) :
    o.isSome ↔
      (b.tgg2.isSome ∧ b.tag2.isSome ∧ b.tgp2.isSome ∧ b.tgl2.isSome) := by
  unfold tagsSectionOf at h
  cases h1 : b.tgg2 <;> cases h2 : b.tag2 <;> cases h3 : b.tgp2 <;>
    cases h4 : b.tgl2 <;> simp only [h1, h2, h3, h4] at h
  all_goals try (injection h with h; subst h; simp)
  split at h
  · exact Except.noConfusion h
  · injection h with h; subst h; simp

/-- The styles section is present exactly when SYL3 and SLB1 both
decoded. -/
theorem stylesSectionOf_isSome (b : MsbpBlocks)
    (o : Option (List (String × (Nat × Nat × Nat × Int))))
    (h : stylesSectionOf b = .ok o) :
    o.isSome ↔ (b.syl3.isSome ∧ b.slb1.isSome) := by
  unfold stylesSectionOf at h
  cases h1 : b.syl3 <;> cases h2 : b.slb1 <;> simp only [h1, h2] at h
  · injection h with h; subst h; simp
  · injection h with h; subst h; simp
  · injection h with h; subst h; simp
  · split at h
    · exact Except.noConfusion h
    · injection h with h; subst h; simp

/-- A successful assembly decomposes into its four section results. -/
theorem msbpAssemble_decomp (b : MsbpBlocks) (d : MsbpData)
    (h : msbpAssemble b = .ok d) :
    ∃ cs ts ss, colorsSectionOf b = .ok cs ∧ attrCheckOf b = .ok () ∧
      tagsSectionOf b = .ok ts ∧ stylesSectionOf b = .ok ss ∧
      d = ⟨cs, ts, ss, b.cti1⟩ := by
  unfold msbpAssemble at h
  cases h1 : colorsSectionOf b with
  | error e => simp only [h1] at h; exact Except.noConfusion h
  | ok cs =>
    simp only [h1] at h
    cases h2 : attrCheckOf b with
    | error e => simp only [h2] at h; exact Except.noConfusion h
    | ok u =>
      obtain ⟨⟩ := u
      simp only [h2] at h
      cases h3 : tagsSectionOf b with
      | error e => simp only [h3] at h; exact Except.noConfusion h
      | ok ts =>
        simp only [h3] at h
        cases h4 : stylesSectionOf b with
        | error e => simp only [h4] at h; exact Except.noConfusion h
        | ok ss =>
          simp only [h4] at h
          injection h with h
          exact ⟨cs, ts, ss, rfl, rfl, rfl, rfl, h.symm⟩

/-- Assembly from its four section results. -/
theorem msbpAssemble_mk (b : MsbpBlocks) (cs ts ss)
    (h1 : colorsSectionOf b = .ok cs) (h2 : attrCheckOf b = .ok ())
    (h3 : tagsSectionOf b = .ok ts) (h4 : stylesSectionOf b = .ok ss) :
    msbpAssemble b = .ok ⟨cs, ts, ss, b.cti1⟩ := by
  unfold msbpAssemble
  rw [h1]
  simp only []
  rw [h2]
  simp only []
  rw [h3]
  simp only []
  rw [h4]

/-- Removing a member of the color pair makes the colors section skip. -/
theorem colorsSectionOf_erase_clr1 (b : MsbpBlocks) :
    colorsSectionOf {b with clr1 := none} = .ok none := by
  unfold colorsSectionOf
  rfl

/-- Removing CLB1 makes the colors section skip. -/
theorem colorsSectionOf_erase_clb1 (b : MsbpBlocks) :
    colorsSectionOf {b with clb1 := none} = .ok none := by
  unfold colorsSectionOf
  cases b.clr1 <;> rfl

/-- Removing a member of the tag quadruple makes the tags section
skip. -/
theorem tagsSectionOf_erase_tgg2 (b : MsbpBlocks) :
    tagsSectionOf {b with tgg2 := none} = .ok none := by
  unfold tagsSectionOf
  rfl

theorem tagsSectionOf_erase_tag2 (b : MsbpBlocks) :
    tagsSectionOf {b with tag2 := none} = .ok none := by
  unfold tagsSectionOf
  cases b.tgg2 <;> rfl

theorem tagsSectionOf_erase_tgp2 (b : MsbpBlocks) :
    tagsSectionOf {b with tgp2 := none} = .ok none := by
  unfold tagsSectionOf
  cases b.tgg2 <;> cases b.tag2 <;> rfl

theorem tagsSectionOf_erase_tgl2 (b : MsbpBlocks) :
    tagsSectionOf {b with tgl2 := none} = .ok none := by
  unfold tagsSectionOf
  cases b.tgg2 <;> cases b.tag2 <;> cases b.tgp2 <;> rfl

/-- Removing a member of the style pair makes the styles section skip. -/
theorem stylesSectionOf_erase_syl3 (b : MsbpBlocks) :
    stylesSectionOf {b with syl3 := none} = .ok none := by
  unfold stylesSectionOf
  rfl

theorem stylesSectionOf_erase_slb1 (b : MsbpBlocks) :
    stylesSectionOf {b with slb1 := none} = .ok none := by
  unfold stylesSectionOf
  cases b.syl3 <;> rfl

/-- C8: for every project-definition input that decodes, each catalog
section is present exactly when all of its complementary blocks are
(CLR1+CLB1, TGG2+TAG2+TGP2+TGL2, SYL3+SLB1, CTI1 alone); and removing
any one member of a group from a successfully assembling block set still
assembles, with just that section omitted. -/
theorem C8_sections_require_complementary_blocks :
    (∀ (s : Stream) (m : MsbpBlocks × MsbpData), decodeMSBP s = .ok m →
       ((m.2.colors.isSome ↔ (m.1.clr1.isSome ∧ m.1.clb1.isSome)) ∧
        (m.2.tags.isSome ↔
          (m.1.tgg2.isSome ∧ m.1.tag2.isSome ∧ m.1.tgp2.isSome ∧
            m.1.tgl2.isSome)) ∧
        (m.2.styles.isSome ↔ (m.1.syl3.isSome ∧ m.1.slb1.isSome)) ∧
        (m.2.filenames.isSome ↔ m.1.cti1.isSome))) ∧
    (∀ (b : MsbpBlocks) (d : MsbpData), msbpAssemble b = .ok d →
       msbpAssemble {b with clr1 := none} = .ok {d with colors := none} ∧
       msbpAssemble {b with clb1 := none} = .ok {d with colors := none} ∧
       msbpAssemble {b with tgg2 := none} = .ok {d with tags := none} ∧
       msbpAssemble {b with tag2 := none} = .ok {d with tags := none} ∧
       msbpAssemble {b with tgp2 := none} = .ok {d with tags := none} ∧
       msbpAssemble {b with tgl2 := none} = .ok {d with tags := none} ∧
       msbpAssemble {b with syl3 := none} = .ok {d with styles := none} ∧
       msbpAssemble {b with slb1 := none} = .ok {d with styles := none} ∧
       msbpAssemble {b with cti1 := none} = .ok {d with filenames := none}) := by
  constructor
  · intro s m h
    unfold decodeMSBP at h
    cases h1 : lmsHeader s "MsgPrjBn" with
    | error e => simp only [h1] at h; exact Except.noConfusion h
    | ok t =>
      obtain ⟨hd, p⟩ := t
      simp only [h1] at h
      cases h2 : msbpBlockLoop hd.bo hd.encoding s hd.numBlocks p {} with
      | error e => simp only [h2] at h; exact Except.noConfusion h
      | ok blocks =>
        simp only [h2] at h
        cases h3 : msbpAssemble blocks with
        | error e => simp only [h3] at h; exact Except.noConfusion h
        | ok data =>
          simp only [h3] at h
          injection h with h
          subst h
          obtain ⟨cs, ts, ss, hcs, _, hts, hss, hd2⟩ :=
            msbpAssemble_decomp blocks data h3
          subst hd2
          exact ⟨colorsSectionOf_isSome blocks cs hcs,
            tagsSectionOf_isSome blocks ts hts,
            stylesSectionOf_isSome blocks ss hss, Iff.rfl⟩
  · intro b d h
    obtain ⟨cs, ts, ss, hcs, hattr, hts, hss, hd2⟩ := msbpAssemble_decomp b d h
    subst hd2
    refine ⟨?_, ?_, ?_, ?_, ?_, ?_, ?_, ?_, ?_⟩
    · exact msbpAssemble_mk _ none ts ss (colorsSectionOf_erase_clr1 b)
        hattr hts hss
    · exact msbpAssemble_mk _ none ts ss (colorsSectionOf_erase_clb1 b)
        hattr hts hss
    · exact msbpAssemble_mk _ cs none ss hcs hattr
        (tagsSectionOf_erase_tgg2 b) hss
    · exact msbpAssemble_mk _ cs none ss hcs hattr
        (tagsSectionOf_erase_tag2 b) hss
    · exact msbpAssemble_mk _ cs none ss hcs hattr
        (tagsSectionOf_erase_tgp2 b) hss
    · exact msbpAssemble_mk _ cs none ss hcs hattr
        (tagsSectionOf_erase_tgl2 b) hss
    · exact msbpAssemble_mk _ cs ts none hcs hattr hts
        (stylesSectionOf_erase_syl3 b)
    · exact msbpAssemble_mk _ cs ts none hcs hattr hts
        (stylesSectionOf_erase_slb1 b)
    · exact msbpAssemble_mk _ cs ts ss hcs hattr hts hss

/-- Witness for C8: the minimal zero-block MSBP file decodes with every
section absent, and erasing CTI1 from the empty block set still
assembles. -/
theorem C8_sections_require_complementary_blocks_witness :
    ((({} : MsbpData).filenames.isSome ↔ ({} : MsbpBlocks).cti1.isSome) ∧
     msbpAssemble {({} : MsbpBlocks) with cti1 := none} =
       .ok {({} : MsbpData) with filenames := none}) :=
  ⟨(C8_sections_require_complementary_blocks.1 msbpMinStream ({}, {})
      (by decide)).2.2.2,
   (C8_sections_require_complementary_blocks.2 {} {}
      (by decide)).2.2.2.2.2.2.2.2⟩

/-! Supporting lemmas for C10: every read the localization decoders
perform after the container header happens at a byte offset of at least
0x16, so two streams that differ only in the file-size field at
0x12..0x15 behave identically.  Each reader gets a congruence lemma
(equal results on agreeing streams) and, where a loop threads the
returned position onward, a position lemma. -/

/-- A successful raw read lands the position exactly `n` further. -/
theorem readRaw_ok_pos {s : Stream} {pos n : Nat} {b : Bool}
    {bs : List Nat} {p : Nat} (h : readRaw s pos n b = .ok (bs, p)) :
    p = pos + n := by
  unfold readRaw at h
  split at h
  · exact Except.noConfusion h
  · injection h with h
    injection h with h1 h2
    omega

/-- Raw reads agree when the streams have equal length and agree on the
read window. -/
theorem readRaw_congr_w {s t : Stream} (_hlen : s.length = t.length)
    {pos n : Nat} (hag : ∀ i, pos ≤ i → i < pos + n → s[i]? = t[i]?)
    (b : Bool) : readRaw s pos n b = readRaw t pos n b := by
  have hslice : sliceN s pos n = sliceN t pos n := by
    apply List.ext_getElem?
    intro j
    simp only [sliceN, List.getElem?_take, List.getElem?_drop]
    by_cases hj : j < n
    · rw [if_pos hj, if_pos hj]
      exact hag (pos + j) (by omega) (by omega)
    · rw [if_neg hj, if_neg hj]
  unfold readRaw
  rw [hslice]

/-- Raw reads at positions from 0x16 on agree on agreeing streams. -/
theorem readRaw_congr {s t : Stream} (hA : Agree s t) {pos : Nat}
    (hp : 0x16 ≤ pos) (n : Nat) (b : Bool) :
    readRaw s pos n b = readRaw t pos n b :=
  readRaw_congr_w hA.1 (fun i h1 _ => hA.2 i (Or.inr (le_trans hp h1))) b

/-- Raw reads wholly below offset 0x12 agree on agreeing streams. -/
theorem readRaw_congr_lo {s t : Stream} (hA : Agree s t) {pos n : Nat}
    (hp : pos + n ≤ 0x12) (b : Bool) :
    readRaw s pos n b = readRaw t pos n b :=
  readRaw_congr_w hA.1 (fun i _ h2 => hA.2 i (Or.inl (by omega))) b

/-- Raw reads of equal-length streams succeed or fail together, failing
with the same error and succeeding at the same position. -/
theorem readRaw_shape {s t : Stream} (hlen : s.length = t.length)
    (pos n : Nat) (b : Bool) :
    (∀ e, readRaw s pos n b = .error e → readRaw t pos n b = .error e) ∧
    (∀ bs p, readRaw s pos n b = .ok (bs, p) →
      ∃ bs2, readRaw t pos n b = .ok (bs2, p)) := by
  have hslen : (sliceN s pos n).length = (sliceN t pos n).length := by
    simp only [sliceN, List.length_take, List.length_drop, hlen]
  constructor
  · intro e h
    unfold readRaw at h ⊢
    split at h
    next hc =>
      injection h with h
      subst h
      rw [if_pos ⟨hc.1, by omega⟩]
    next hc => exact Except.noConfusion h
  · intro bs p h
    unfold readRaw at h ⊢
    split at h
    · exact Except.noConfusion h
    next hc =>
      injection h with h
      injection h with h1 h2
      subst h2
      refine ⟨sliceN t pos n, ?_⟩
      split
      next hc2 =>
        exfalso
        have := hc2.2
        apply hc
        constructor
        · exact hc2.1
        · omega
      next => rfl

theorem read_u8_congr {s t : Stream} (hA : Agree s t) {pos : Nat}
    (hp : 0x16 ≤ pos) : read_u8 s pos = read_u8 t pos := by
  unfold read_u8
  rw [readRaw_congr hA hp]

theorem read_u8_ok_pos {s : Stream} {pos v p : Nat}
    (h : read_u8 s pos = .ok (v, p)) : p = pos + 1 := by
  unfold read_u8 at h
  cases hr : readRaw s pos 1 false with
  | error e => simp only [hr] at h; exact Except.noConfusion h
  | ok r =>
    obtain ⟨bs, p2⟩ := r
    simp only [hr] at h
    injection h with h
    injection h with h1 h2
    subst h2
    exact readRaw_ok_pos hr

theorem read_u16_congr {s t : Stream} (hA : Agree s t) (bo : BO) {pos : Nat}
    (hp : 0x16 ≤ pos) : read_u16 bo s pos = read_u16 bo t pos := by
  unfold read_u16
  rw [readRaw_congr hA hp]

theorem read_u16_ok_pos {s : Stream} {bo : BO} {pos v p : Nat}
    (h : read_u16 bo s pos = .ok (v, p)) : p = pos + 2 := by
  unfold read_u16 at h
  cases hr : readRaw s pos 2 false with
  | error e => simp only [hr] at h; exact Except.noConfusion h
  | ok r =>
    obtain ⟨bs, p2⟩ := r
    simp only [hr] at h
    injection h with h
    injection h with h1 h2
    subst h2
    exact readRaw_ok_pos hr

theorem read_u32_congr {s t : Stream} (hA : Agree s t) (bo : BO) {pos : Nat}
    (hp : 0x16 ≤ pos) : read_u32 bo s pos = read_u32 bo t pos := by
  unfold read_u32
  rw [readRaw_congr hA hp]

theorem read_u32_ok_pos {s : Stream} {bo : BO} {pos v p : Nat}
    (h : read_u32 bo s pos = .ok (v, p)) : p = pos + 4 := by
  unfold read_u32 at h
  cases hr : readRaw s pos 4 false with
  | error e => simp only [hr] at h; exact Except.noConfusion h
  | ok r =>
    obtain ⟨bs, p2⟩ := r
    simp only [hr] at h
    injection h with h
    injection h with h1 h2
    subst h2
    exact readRaw_ok_pos hr

theorem read_s16_congr {s t : Stream} (hA : Agree s t) (bo : BO) {pos : Nat}
    (hp : 0x16 ≤ pos) : read_s16 bo s pos = read_s16 bo t pos := by
  unfold read_s16
  rw [readRaw_congr hA hp]

theorem read_s16_ok_pos {s : Stream} {bo : BO} {pos : Nat} {v : Int} {p : Nat}
    (h : read_s16 bo s pos = .ok (v, p)) : p = pos + 2 := by
  unfold read_s16 at h
  cases hr : readRaw s pos 2 false with
  | error e => simp only [hr] at h; exact Except.noConfusion h
  | ok r =>
    obtain ⟨bs, p2⟩ := r
    simp only [hr] at h
    injection h with h
    injection h with h1 h2
    subst h2
    exact readRaw_ok_pos hr

theorem readStringFixed_congr {s t : Stream} (hA : Agree s t)
    (c : Codec) (cs : Nat) {size pos : Nat} (hp : 0x16 ≤ pos) :
    readStringFixed c cs s size pos = readStringFixed c cs t size pos := by
  unfold readStringFixed
  rw [readRaw_congr hA hp]

theorem readStringFixed_ok_pos {s : Stream} {c : Codec} {cs size pos : Nat}
    {str : String} {p : Nat}
    (h : readStringFixed c cs s size pos = .ok (str, p)) : p = pos + size := by
  unfold readStringFixed at h
  cases hr : readRaw s pos size true with
  | error e => simp only [hr] at h; exact Except.noConfusion h
  | ok r =>
    obtain ⟨bs, p2⟩ := r
    simp only [hr] at h
    split at h
    · injection h with h
      injection h with h1 h2
      subst h2
      exact readRaw_ok_pos hr
    · exact Except.noConfusion h

theorem readStringNT_congr {s t : Stream} (hA : Agree s t)
    (c : Codec) (cs : Nat) :
    ∀ (fuel pos : Nat) (acc : List Nat), 0x16 ≤ pos →
      readStringNT c cs s fuel pos acc = readStringNT c cs t fuel pos acc := by
  intro fuel
  induction fuel with
  | zero => intro pos acc hp; rfl
  | succ m ih =>
    intro pos acc hp
    simp only [readStringNT]
    rw [readRaw_congr hA hp]
    cases hr : readRaw t pos cs false with
    | error e => rfl
    | ok r =>
      obtain ⟨chunk, p⟩ := r
      have hp2 : 0x16 ≤ p := by
        have := readRaw_ok_pos hr
        omega
      simp only []
      split
      · rfl
      · exact ih p (acc ++ chunk) hp2

theorem readStringNT_ok_pos {s : Stream} {c : Codec} {cs : Nat} :
    ∀ {fuel pos : Nat} {acc : List Nat} {str : String} {p : Nat},
      readStringNT c cs s fuel pos acc = .ok (str, p) → pos ≤ p := by
  intro fuel
  induction fuel with
  | zero => intro pos acc str p h; exact Except.noConfusion h
  | succ m ih =>
    intro pos acc str p h
    simp only [readStringNT] at h
    cases hr : readRaw s pos cs false with
    | error e => simp only [hr] at h; exact Except.noConfusion h
    | ok r =>
      obtain ⟨chunk, p2⟩ := r
      have hp2 : p2 = pos + cs := readRaw_ok_pos hr
      simp only [hr] at h
      split at h
      · split at h
        · injection h with h
          injection h with h1 h2
          omega
        · exact Except.noConfusion h
      · have := ih h
        omega

theorem read_string_congr {s t : Stream} (hA : Agree s t)
    (c : Codec) (cs : Nat) (size : Int) (fuel : Nat) {pos : Nat}
    (hp : 0x16 ≤ pos) :
    read_string c cs s size fuel pos = read_string c cs t size fuel pos := by
  unfold read_string
  split
  · exact readStringNT_congr hA c cs fuel pos [] hp
  · split
    · rfl
    · exact readStringFixed_congr hA c cs hp

theorem read_string_ok_pos {s : Stream} {c : Codec} {cs : Nat} {size : Int}
    {fuel pos : Nat} {str : String} {p : Nat}
    (h : read_string c cs s size fuel pos = .ok (str, p)) : pos ≤ p := by
  unfold read_string at h
  split at h
  · exact readStringNT_ok_pos h
  · split at h
    · exact Except.noConfusion h
    · have := readStringFixed_ok_pos h
      omega

theorem readEncoded_congr {s t : Stream} (hA : Agree s t)
    (e : LmsEncoding) (size : Int) {pos : Nat} (hp : 0x16 ≤ pos) :
    readEncoded e s size pos = readEncoded e t size pos := by
  unfold readEncoded
  rw [show s.length = t.length from hA.1]
  exact read_string_congr hA (encPair e).1 (encPair e).2 size (t.length + 1) hp

theorem readEncoded_ok_pos {s : Stream} {e : LmsEncoding} {size : Int}
    {pos : Nat} {str : String} {p : Nat}
    (h : readEncoded e s size pos = .ok (str, p)) : pos ≤ p :=
  read_string_ok_pos h

theorem read_u16s_congr {s t : Stream} (hA : Agree s t) (bo : BO) :
    ∀ (count pos : Nat), 0x16 ≤ pos →
      read_u16s bo s count pos = read_u16s bo t count pos := by
  intro count
  induction count with
  | zero => intro pos hp; rfl
  | succ m ih =>
    intro pos hp
    simp only [read_u16s]
    rw [read_u16_congr hA bo hp]
    cases hr : read_u16 bo t pos with
    | error e => rfl
    | ok r =>
      obtain ⟨v, p⟩ := r
      have hp2 : 0x16 ≤ p := by
        have := read_u16_ok_pos hr
        omega
      simp only []
      rw [ih p hp2]

theorem read_u16s_ok_pos {s : Stream} {bo : BO} :
    ∀ {count pos : Nat} {vs : List Nat} {p : Nat},
      read_u16s bo s count pos = .ok (vs, p) → pos ≤ p := by
  intro count
  induction count with
  | zero =>
    intro pos vs p h
    simp only [read_u16s] at h
    injection h with h
    injection h with h1 h2
    omega
  | succ m ih =>
    intro pos vs p h
    simp only [read_u16s] at h
    cases hr : read_u16 bo s pos with
    | error e => simp only [hr] at h; exact Except.noConfusion h
    | ok r =>
      obtain ⟨v, p2⟩ := r
      simp only [hr] at h
      cases hr2 : read_u16s bo s m p2 with
      | error e => simp only [hr2] at h; exact Except.noConfusion h
      | ok r2 =>
        obtain ⟨vs2, p3⟩ := r2
        simp only [hr2] at h
        injection h with h
        injection h with h1 h2
        subst h2
        have := read_u16_ok_pos hr
        have := ih hr2
        omega

theorem read_u32s_congr {s t : Stream} (hA : Agree s t) (bo : BO) :
    ∀ (count pos : Nat), 0x16 ≤ pos →
      read_u32s bo s count pos = read_u32s bo t count pos := by
  intro count
  induction count with
  | zero => intro pos hp; rfl
  | succ m ih =>
    intro pos hp
    simp only [read_u32s]
    rw [read_u32_congr hA bo hp]
    cases hr : read_u32 bo t pos with
    | error e => rfl
    | ok r =>
      obtain ⟨v, p⟩ := r
      have hp2 : 0x16 ≤ p := by
        have := read_u32_ok_pos hr
        omega
      simp only []
      rw [ih p hp2]

theorem read_u32s_ok_pos {s : Stream} {bo : BO} :
    ∀ {count pos : Nat} {vs : List Nat} {p : Nat},
      read_u32s bo s count pos = .ok (vs, p) → pos ≤ p := by
  intro count
  induction count with
  | zero =>
    intro pos vs p h
    simp only [read_u32s] at h
    injection h with h
    injection h with h1 h2
    omega
  | succ m ih =>
    intro pos vs p h
    simp only [read_u32s] at h
    cases hr : read_u32 bo s pos with
    | error e => simp only [hr] at h; exact Except.noConfusion h
    | ok r =>
      obtain ⟨v, p2⟩ := r
      simp only [hr] at h
      cases hr2 : read_u32s bo s m p2 with
      | error e => simp only [hr2] at h; exact Except.noConfusion h
      | ok r2 =>
        obtain ⟨vs2, p3⟩ := r2
        simp only [hr2] at h
        injection h with h
        injection h with h1 h2
        subst h2
        have := read_u32_ok_pos hr
        have := ih hr2
        omega

/-! Low-window congruence variants for the header fields before the
file-size field, and exact positions through the header chain. -/

theorem read_u8_congr_lo {s t : Stream} (hA : Agree s t) {pos : Nat}
    (hp : pos + 1 ≤ 0x12) : read_u8 s pos = read_u8 t pos := by
  unfold read_u8
  rw [readRaw_congr_lo hA hp]

theorem read_u16_congr_lo {s t : Stream} (hA : Agree s t) (bo : BO)
    {pos : Nat} (hp : pos + 2 ≤ 0x12) :
    read_u16 bo s pos = read_u16 bo t pos := by
  unfold read_u16
  rw [readRaw_congr_lo hA hp]

theorem readStringFixed_congr_lo {s t : Stream} (hA : Agree s t)
    (c : Codec) (cs : Nat) {size pos : Nat} (hp : pos + size ≤ 0x12) :
    readStringFixed c cs s size pos = readStringFixed c cs t size pos := by
  unfold readStringFixed
  rw [readRaw_congr_lo hA hp]

theorem read_signature_congr_lo {s t : Stream} (hA : Agree s t)
    {pos size : Nat} (expected : String) (hp : pos + size ≤ 0x12) :
    read_signature s pos size expected = read_signature t pos size expected := by
  unfold read_signature
  rw [readStringFixed_congr_lo hA .ascii 1 hp]

theorem read_signature_ok_pos {s : Stream} {pos size : Nat}
    {expected sig : String} {p : Nat}
    (h : read_signature s pos size expected = .ok (sig, p)) :
    p = pos + size := by
  unfold read_signature at h
  cases hr : readStringFixed .ascii 1 s size pos with
  | error e => simp only [hr] at h; exact Except.noConfusion h
  | ok r =>
    obtain ⟨sg, p2⟩ := r
    simp only [hr] at h
    split at h
    · injection h with h
      injection h with h1 h2
      subst h2
      exact readStringFixed_ok_pos hr
    · exact Except.noConfusion h

theorem read_byte_order_congr_lo {s t : Stream} (hA : Agree s t)
    {pos : Nat} (hp : pos + 2 ≤ 0x12) :
    read_byte_order s pos = read_byte_order t pos := by
  unfold read_byte_order
  rw [readRaw_congr_lo hA hp]

theorem read_byte_order_ok_pos {s : Stream} {pos : Nat} {bo : BO} {p : Nat}
    (h : read_byte_order s pos = .ok (bo, p)) : p = pos + 2 := by
  unfold read_byte_order at h
  cases hr : readRaw s pos 2 false with
  | error e => simp only [hr] at h; exact Except.noConfusion h
  | ok r =>
    obtain ⟨bs, p2⟩ := r
    simp only [hr] at h
    split at h
    · injection h with h
      injection h with h1 h2
      subst h2
      exact readRaw_ok_pos hr
    · split at h
      · injection h with h
        injection h with h1 h2
        subst h2
        exact readRaw_ok_pos hr
      · exact Except.noConfusion h

/-- 32-bit reads of equal-length streams succeed or fail together with
the same error or the same final position (values may differ). -/
theorem read_u32_shape {s t : Stream} (hlen : s.length = t.length)
    (bo : BO) (pos : Nat) :
    (∀ e, read_u32 bo s pos = .error e → read_u32 bo t pos = .error e) ∧
    (∀ v p, read_u32 bo s pos = .ok (v, p) →
      ∃ v2, read_u32 bo t pos = .ok (v2, p)) := by
  constructor
  · intro e h
    unfold read_u32 at h ⊢
    cases hr : readRaw s pos 4 false with
    | error e2 =>
      simp only [hr] at h
      injection h with h
      subst h
      rw [(readRaw_shape hlen pos 4 false).1 e2 hr]
    | ok r =>
      simp only [hr] at h
      exact Except.noConfusion h
  · intro v p h
    unfold read_u32 at h ⊢
    cases hr : readRaw s pos 4 false with
    | error e => simp only [hr] at h; exact Except.noConfusion h
    | ok r =>
      obtain ⟨bs, p2⟩ := r
      simp only [hr] at h
      injection h with h
      injection h with h1 h2
      subst h2
      obtain ⟨bs2, hr2⟩ := (readRaw_shape hlen pos 4 false).2 _ _ hr
      rw [hr2]
      exact ⟨boVal bo bs2, rfl⟩

/-- The header chain on two agreeing streams: equal errors, or results
at the same position agreeing on every field except possibly the
declared file size. -/
theorem lmsHeader_congr {s t : Stream} (hA : Agree s t) (sig : String) :
    match lmsHeader s sig, lmsHeader t sig with
    | .error e1, .error e2 => e1 = e2
    | .ok (h1, p1), .ok (h2, p2) =>
      p1 = p2 ∧ p1 = 0x20 ∧ h1.bo = h2.bo ∧ h1.encoding = h2.encoding ∧
        h1.version = h2.version ∧ h1.numBlocks = h2.numBlocks
    | _, _ => False := by
  unfold lmsHeader
  rw [read_signature_congr_lo hA sig (by omega)]
  cases h1 : read_signature t 0 8 sig with
  | error e => simp only []
  | ok r1 =>
    obtain ⟨sg, p1⟩ := r1
    have hp1 : p1 = 8 := read_signature_ok_pos h1
    subst hp1
    simp only []
    rw [read_byte_order_congr_lo hA (by omega)]
    cases h2 : read_byte_order t 8 with
    | error e => simp only []
    | ok r2 =>
      obtain ⟨bo, p2⟩ := r2
      have hp2 : p2 = 10 := read_byte_order_ok_pos h2
      subst hp2
      simp only []
      rw [readRaw_congr_lo hA (show 10 + 2 ≤ 0x12 by omega) false]
      cases h3 : readRaw t 10 2 false with
      | error e => simp only []
      | ok r3 =>
        obtain ⟨bs3, p3⟩ := r3
        have hp3 : p3 = 12 := readRaw_ok_pos h3
        subst hp3
        simp only []
        rw [read_u8_congr_lo hA (show 12 + 1 ≤ 0x12 by omega)]
        cases h4 : read_u8 t 12 with
        | error e => simp only []
        | ok r4 =>
          obtain ⟨encCode, p4⟩ := r4
          have hp4 : p4 = 13 := read_u8_ok_pos h4
          subst hp4
          simp only []
          cases h5 : encodingOf encCode with
          | error e => simp only []
          | ok enc =>
            simp only []
            rw [read_u8_congr_lo hA (show 13 + 1 ≤ 0x12 by omega)]
            cases h6 : read_u8 t 13 with
            | error e => simp only []
            | ok r6 =>
              obtain ⟨version, p6⟩ := r6
              have hp6 : p6 = 14 := read_u8_ok_pos h6
              subst hp6
              simp only []
              rw [read_u16_congr_lo hA bo (show 14 + 2 ≤ 0x12 by omega)]
              cases h7 : read_u16 bo t 14 with
              | error e => simp only []
              | ok r7 =>
                obtain ⟨numBlocks, p7⟩ := r7
                have hp7 : p7 = 16 := read_u16_ok_pos h7
                subst hp7
                simp only []
                rw [readRaw_congr_lo hA (show 16 + 2 ≤ 0x12 by omega) false]
                cases h8 : readRaw t 16 2 false with
                | error e => simp only []
                | ok r8 =>
                  obtain ⟨bs8, p8⟩ := r8
                  have hp8 : p8 = 18 := readRaw_ok_pos h8
                  subst hp8
                  simp only []
                  -- the file-size read: values may differ, shape may not
                  cases h9 : read_u32 bo s 18 with
                  | error e =>
                    rw [(read_u32_shape hA.1 bo 18).1 e h9]
                  | ok r9 =>
                    obtain ⟨fs9, p9⟩ := r9
                    obtain ⟨fs9t, h9t⟩ := (read_u32_shape hA.1 bo 18).2 _ _ h9
                    rw [h9t]
                    have hp9 : p9 = 22 := read_u32_ok_pos h9
                    subst hp9
                    simp only []
                    rw [readRaw_congr hA (show 0x16 ≤ 22 by omega) 10 false]
                    cases h10 : readRaw t 22 10 false with
                    | error e => simp only []
                    | ok r10 =>
                      obtain ⟨bs10, p10⟩ := r10
                      have hp10 : p10 = 32 := readRaw_ok_pos h10
                      subst hp10
                      simp

/-! Congruence of every MSBP/MSBT block decoder: each reads only at
positions at or beyond its entry position, which is at least 0x16. -/

theorem clr1Colors_congr {s t : Stream} (hA : Agree s t) :
    ∀ (count pos : Nat), 0x16 ≤ pos →
      clr1Colors s count pos = clr1Colors t count pos := by
  intro count
  induction count with
  | zero => intro pos hp; rfl
  | succ m ih =>
    intro pos hp
    simp only [clr1Colors]
    rw [read_u8_congr hA hp]
    cases h1 : read_u8 t pos with
    | error e => rfl
    | ok r1 =>
      obtain ⟨a, p1⟩ := r1
      have hq1 := read_u8_ok_pos h1
      simp only []
      rw [read_u8_congr hA (by omega)]
      cases h2 : read_u8 t p1 with
      | error e => rfl
      | ok r2 =>
        obtain ⟨b, p2⟩ := r2
        have hq2 := read_u8_ok_pos h2
        simp only []
        rw [read_u8_congr hA (by omega)]
        cases h3 : read_u8 t p2 with
        | error e => rfl
        | ok r3 =>
          obtain ⟨c, p3⟩ := r3
          have hq3 := read_u8_ok_pos h3
          simp only []
          rw [read_u8_congr hA (by omega)]
          cases h4 : read_u8 t p3 with
          | error e => rfl
          | ok r4 =>
            obtain ⟨d, p4⟩ := r4
            have hq4 := read_u8_ok_pos h4
            simp only []
            rw [ih p4 (by omega)]

theorem clr1Block_congr {s t : Stream} (hA : Agree s t) (bo : BO)
    {pos : Nat} (hp : 0x16 ≤ pos) :
    clr1Block bo s pos = clr1Block bo t pos := by
  unfold clr1Block
  rw [read_u32_congr hA bo hp]
  cases h1 : read_u32 bo t pos with
  | error e => rfl
  | ok r =>
    obtain ⟨count, p⟩ := r
    have hq := read_u32_ok_pos h1
    simp only []
    rw [clr1Colors_congr hA count p (by omega)]

theorem ati2Attrs_congr {s t : Stream} (hA : Agree s t) (bo : BO) :
    ∀ (count pos : Nat), 0x16 ≤ pos →
      ati2Attrs bo s count pos = ati2Attrs bo t count pos := by
  intro count
  induction count with
  | zero => intro pos hp; rfl
  | succ m ih =>
    intro pos hp
    simp only [ati2Attrs]
    rw [read_u8_congr hA hp]
    cases h1 : read_u8 t pos with
    | error e => rfl
    | ok r1 =>
      obtain ⟨ty, p1⟩ := r1
      have hq1 := read_u8_ok_pos h1
      simp only []
      rw [read_u8_congr hA (by omega)]
      cases h2 : read_u8 t p1 with
      | error e => rfl
      | ok r2 =>
        obtain ⟨pad, p2⟩ := r2
        have hq2 := read_u8_ok_pos h2
        simp only []
        rw [read_u16_congr hA bo (by omega)]
        cases h3 : read_u16 bo t p2 with
        | error e => rfl
        | ok r3 =>
          obtain ⟨idx, p3⟩ := r3
          have hq3 := read_u16_ok_pos h3
          simp only []
          rw [read_u32_congr hA bo (by omega)]
          cases h4 : read_u32 bo t p3 with
          | error e => rfl
          | ok r4 =>
            obtain ⟨off, p4⟩ := r4
            have hq4 := read_u32_ok_pos h4
            simp only []
            rw [ih p4 (by omega)]

theorem ati2Block_congr {s t : Stream} (hA : Agree s t) (bo : BO)
    {pos : Nat} (hp : 0x16 ≤ pos) :
    ati2Block bo s pos = ati2Block bo t pos := by
  unfold ati2Block
  rw [read_u32_congr hA bo hp]
  cases h1 : read_u32 bo t pos with
  | error e => rfl
  | ok r =>
    obtain ⟨count, p⟩ := r
    have hq := read_u32_ok_pos h1
    simp only []
    rw [ati2Attrs_congr hA bo count p (by omega)]

theorem ali2Names_congr {s t : Stream} (hA : Agree s t) (enc : LmsEncoding)
    {start : Nat} (hstart : 0x16 ≤ start) :
    ∀ offs : List Nat, ali2Names enc s start offs = ali2Names enc t start offs := by
  intro offs
  induction offs with
  | nil => rfl
  | cons off rest ih =>
    simp only [ali2Names]
    rw [readEncoded_congr hA enc (-1) (show 0x16 ≤ start + off by omega)]
    cases h1 : readEncoded enc t (-1) (start + off) with
    | error e => rfl
    | ok r =>
      obtain ⟨name, p⟩ := r
      simp only []
      rw [ih]

theorem ali2Lists_congr {s t : Stream} (hA : Agree s t) (bo : BO)
    (enc : LmsEncoding) {start : Nat} (hstart : 0x16 ≤ start) :
    ∀ offs : List Nat,
      ali2Lists bo enc s start offs = ali2Lists bo enc t start offs := by
  intro offs
  induction offs with
  | nil => rfl
  | cons off rest ih =>
    simp only [ali2Lists]
    rw [read_u32_congr hA bo (show 0x16 ≤ start + off by omega)]
    cases h1 : read_u32 bo t (start + off) with
    | error e => rfl
    | ok r1 =>
      obtain ⟨itemCount, p⟩ := r1
      have hq1 := read_u32_ok_pos h1
      simp only []
      rw [read_u32s_congr hA bo itemCount p (by omega)]
      cases h2 : read_u32s bo t itemCount p with
      | error e => rfl
      | ok r2 =>
        obtain ⟨nameOffs, p2⟩ := r2
        simp only []
        rw [ali2Names_congr hA enc hstart nameOffs]
        cases h3 : ali2Names enc t start nameOffs with
        | error e => rfl
        | ok names =>
          simp only []
          rw [ih]

theorem ali2Block_congr {s t : Stream} (hA : Agree s t) (bo : BO)
    (enc : LmsEncoding) {pos : Nat} (hp : 0x16 ≤ pos) :
    ali2Block bo enc s pos = ali2Block bo enc t pos := by
  unfold ali2Block
  rw [read_u32_congr hA bo hp]
  cases h1 : read_u32 bo t pos with
  | error e => rfl
  | ok r =>
    obtain ⟨listCount, p⟩ := r
    have hq := read_u32_ok_pos h1
    simp only []
    rw [read_u32s_congr hA bo listCount p (by omega)]
    cases h2 : read_u32s bo t listCount p with
    | error e => rfl
    | ok r2 =>
      obtain ⟨offs, p2⟩ := r2
      simp only []
      rw [ali2Lists_congr hA bo enc hp offs]

theorem tgg2Groups_congr {s t : Stream} (hA : Agree s t) (bo : BO)
    (enc : LmsEncoding) {start : Nat} (hstart : 0x16 ≤ start) :
    ∀ offs : List Nat,
      tgg2Groups bo enc s start offs = tgg2Groups bo enc t start offs := by
  intro offs
  induction offs with
  | nil => rfl
  | cons off rest ih =>
    simp only [tgg2Groups]
    rw [read_u16_congr hA bo (show 0x16 ≤ start + off by omega)]
    cases h1 : read_u16 bo t (start + off) with
    | error e => rfl
    | ok r1 =>
      obtain ⟨gidx, p⟩ := r1
      have hq1 := read_u16_ok_pos h1
      simp only []
      rw [read_u16_congr hA bo (by omega)]
      cases h2 : read_u16 bo t p with
      | error e => rfl
      | ok r2 =>
        obtain ⟨tagCount, p2⟩ := r2
        have hq2 := read_u16_ok_pos h2
        simp only []
        rw [read_u16s_congr hA bo tagCount p2 (by omega)]
        cases h3 : read_u16s bo t tagCount p2 with
        | error e => rfl
        | ok r3 =>
          obtain ⟨tagIdxs, p3⟩ := r3
          have hq3 := read_u16s_ok_pos h3
          simp only []
          rw [readEncoded_congr hA enc (-1) (by omega)]
          cases h4 : readEncoded enc t (-1) p3 with
          | error e => rfl
          | ok r4 =>
            obtain ⟨gname, p4⟩ := r4
            simp only []
            rw [ih]

theorem tgg2Block_congr {s t : Stream} (hA : Agree s t) (bo : BO)
    (enc : LmsEncoding) {pos : Nat} (hp : 0x16 ≤ pos) :
    tgg2Block bo enc s pos = tgg2Block bo enc t pos := by
  unfold tgg2Block
  rw [read_u16_congr hA bo hp]
  cases h1 : read_u16 bo t pos with
  | error e => rfl
  | ok r1 =>
    obtain ⟨count, p⟩ := r1
    have hq1 := read_u16_ok_pos h1
    simp only []
    rw [read_u16_congr hA bo (by omega)]
    cases h2 : read_u16 bo t p with
    | error e => rfl
    | ok r2 =>
      obtain ⟨pad, p2⟩ := r2
      have hq2 := read_u16_ok_pos h2
      simp only []
      rw [read_u32s_congr hA bo count p2 (by omega)]
      cases h3 : read_u32s bo t count p2 with
      | error e => rfl
      | ok r3 =>
        obtain ⟨offs, p3⟩ := r3
        simp only []
        rw [tgg2Groups_congr hA bo enc hp offs]

theorem tag2Tags_congr {s t : Stream} (hA : Agree s t) (bo : BO)
    (enc : LmsEncoding) {start : Nat} (hstart : 0x16 ≤ start) :
    ∀ offs : List Nat,
      tag2Tags bo enc s start offs = tag2Tags bo enc t start offs := by
  intro offs
  induction offs with
  | nil => rfl
  | cons off rest ih =>
    simp only [tag2Tags]
    rw [read_u16_congr hA bo (show 0x16 ≤ start + off by omega)]
    cases h1 : read_u16 bo t (start + off) with
    | error e => rfl
    | ok r1 =>
      obtain ⟨paramCount, p⟩ := r1
      have hq1 := read_u16_ok_pos h1
      simp only []
      rw [read_u16s_congr hA bo paramCount p (by omega)]
      cases h2 : read_u16s bo t paramCount p with
      | error e => rfl
      | ok r2 =>
        obtain ⟨paramIdxs, p2⟩ := r2
        have hq2 := read_u16s_ok_pos h2
        simp only []
        rw [readEncoded_congr hA enc (-1) (by omega)]
        cases h3 : readEncoded enc t (-1) p2 with
        | error e => rfl
        | ok r3 =>
          obtain ⟨tname, p3⟩ := r3
          simp only []
          rw [ih]

theorem tag2Block_congr {s t : Stream} (hA : Agree s t) (bo : BO)
    (enc : LmsEncoding) {pos : Nat} (hp : 0x16 ≤ pos) :
    tag2Block bo enc s pos = tag2Block bo enc t pos := by
  unfold tag2Block
  rw [read_u16_congr hA bo hp]
  cases h1 : read_u16 bo t pos with
  | error e => rfl
  | ok r1 =>
    obtain ⟨count, p⟩ := r1
    have hq1 := read_u16_ok_pos h1
    simp only []
    rw [read_u16_congr hA bo (by omega)]
    cases h2 : read_u16 bo t p with
    | error e => rfl
    | ok r2 =>
      obtain ⟨pad, p2⟩ := r2
      have hq2 := read_u16_ok_pos h2
      simp only []
      rw [read_u32s_congr hA bo count p2 (by omega)]
      cases h3 : read_u32s bo t count p2 with
      | error e => rfl
      | ok r3 =>
        obtain ⟨offs, p3⟩ := r3
        simp only []
        rw [tag2Tags_congr hA bo enc hp offs]

theorem tgp2Params_congr {s t : Stream} (hA : Agree s t) (bo : BO)
    (enc : LmsEncoding) {start : Nat} (hstart : 0x16 ≤ start) :
    ∀ offs : List Nat,
      tgp2Params bo enc s start offs = tgp2Params bo enc t start offs := by
  intro offs
  induction offs with
  | nil => rfl
  | cons off rest ih =>
    simp only [tgp2Params]
    rw [read_u8_congr hA (show 0x16 ≤ start + off by omega)]
    cases h1 : read_u8 t (start + off) with
    | error e => rfl
    | ok r1 =>
      obtain ⟨ptype, p⟩ := r1
      have hq1 := read_u8_ok_pos h1
      simp only []
      split
      · -- NULL-typed parameter with inline items
        rw [read_u8_congr hA (by omega)]
        cases h2 : read_u8 t p with
        | error e => rfl
        | ok r2 =>
          obtain ⟨pad, p2⟩ := r2
          have hq2 := read_u8_ok_pos h2
          simp only []
          rw [read_u16_congr hA bo (by omega)]
          cases h3 : read_u16 bo t p2 with
          | error e => rfl
          | ok r3 =>
            obtain ⟨itemCount, p3⟩ := r3
            have hq3 := read_u16_ok_pos h3
            simp only []
            rw [read_u16s_congr hA bo itemCount p3 (by omega)]
            cases h4 : read_u16s bo t itemCount p3 with
            | error e => rfl
            | ok r4 =>
              obtain ⟨items, p4⟩ := r4
              have hq4 := read_u16s_ok_pos h4
              simp only []
              rw [readEncoded_congr hA enc (-1) (by omega)]
              cases h5 : readEncoded enc t (-1) p4 with
              | error e => rfl
              | ok r5 =>
                obtain ⟨pname, p5⟩ := r5
                simp only []
                rw [ih]
      · rw [readEncoded_congr hA enc (-1) (by omega)]
        cases h2 : readEncoded enc t (-1) p with
        | error e => rfl
        | ok r2 =>
          obtain ⟨pname, p2⟩ := r2
          simp only []
          rw [ih]

theorem tgp2Block_congr {s t : Stream} (hA : Agree s t) (bo : BO)
    (enc : LmsEncoding) {pos : Nat} (hp : 0x16 ≤ pos) :
    tgp2Block bo enc s pos = tgp2Block bo enc t pos := by
  unfold tgp2Block
  rw [read_u16_congr hA bo hp]
  cases h1 : read_u16 bo t pos with
  | error e => rfl
  | ok r1 =>
    obtain ⟨count, p⟩ := r1
    have hq1 := read_u16_ok_pos h1
    simp only []
    rw [read_u16_congr hA bo (by omega)]
    cases h2 : read_u16 bo t p with
    | error e => rfl
    | ok r2 =>
      obtain ⟨pad, p2⟩ := r2
      have hq2 := read_u16_ok_pos h2
      simp only []
      rw [read_u32s_congr hA bo count p2 (by omega)]
      cases h3 : read_u32s bo t count p2 with
      | error e => rfl
      | ok r3 =>
        obtain ⟨offs, p3⟩ := r3
        simp only []
        rw [tgp2Params_congr hA bo enc hp offs]

theorem tgl2Items_congr {s t : Stream} (hA : Agree s t) (enc : LmsEncoding)
    {start : Nat} (hstart : 0x16 ≤ start) :
    ∀ offs : List Nat, tgl2Items enc s start offs = tgl2Items enc t start offs := by
  intro offs
  induction offs with
  | nil => rfl
  | cons off rest ih =>
    simp only [tgl2Items]
    rw [readEncoded_congr hA enc (-1) (show 0x16 ≤ start + off by omega)]
    cases h1 : readEncoded enc t (-1) (start + off) with
    | error e => rfl
    | ok r =>
      obtain ⟨name, p⟩ := r
      simp only []
      rw [ih]

theorem tgl2Block_congr {s t : Stream} (hA : Agree s t) (bo : BO)
    (enc : LmsEncoding) {pos : Nat} (hp : 0x16 ≤ pos) :
    tgl2Block bo enc s pos = tgl2Block bo enc t pos := by
  unfold tgl2Block
  rw [read_u16_congr hA bo hp]
  cases h1 : read_u16 bo t pos with
  | error e => rfl
  | ok r1 =>
    obtain ⟨count, p⟩ := r1
    have hq1 := read_u16_ok_pos h1
    simp only []
    rw [read_u16_congr hA bo (by omega)]
    cases h2 : read_u16 bo t p with
    | error e => rfl
    | ok r2 =>
      obtain ⟨pad, p2⟩ := r2
      have hq2 := read_u16_ok_pos h2
      simp only []
      rw [read_u32s_congr hA bo count p2 (by omega)]
      cases h3 : read_u32s bo t count p2 with
      | error e => rfl
      | ok r3 =>
        obtain ⟨offs, p3⟩ := r3
        simp only []
        rw [tgl2Items_congr hA enc hp offs]

theorem syl3Styles_congr {s t : Stream} (hA : Agree s t) (bo : BO) :
    ∀ (count pos : Nat), 0x16 ≤ pos →
      syl3Styles bo s count pos = syl3Styles bo t count pos := by
  intro count
  cases count with
  | zero => intro pos hp; rfl
  | succ m =>
    intro pos hp
    simp only [syl3Styles]
    rw [read_u32_congr hA bo hp]
    cases h1 : read_u32 bo t pos with
    | error e => rfl
    | ok r1 =>
      obtain ⟨rw1, p1⟩ := r1
      have hq1 := read_u32_ok_pos h1
      simp only []
      rw [read_u32_congr hA bo (by omega)]
      cases h2 : read_u32 bo t p1 with
      | error e => rfl
      | ok r2 =>
        obtain ⟨ln, p2⟩ := r2
        have hq2 := read_u32_ok_pos h2
        simp only []
        rw [read_u32_congr hA bo (by omega)]

theorem syl3Block_congr {s t : Stream} (hA : Agree s t) (bo : BO)
    {pos : Nat} (hp : 0x16 ≤ pos) :
    syl3Block bo s pos = syl3Block bo t pos := by
  unfold syl3Block
  rw [read_u32_congr hA bo hp]
  cases h1 : read_u32 bo t pos with
  | error e => rfl
  | ok r =>
    obtain ⟨count, p⟩ := r
    have hq := read_u32_ok_pos h1
    simp only []
    rw [syl3Styles_congr hA bo count p (by omega)]

theorem cti1Names_congr {s t : Stream} (hA : Agree s t) (enc : LmsEncoding)
    {start : Nat} (hstart : 0x16 ≤ start) :
    ∀ offs : List Nat, cti1Names enc s start offs = cti1Names enc t start offs := by
  intro offs
  induction offs with
  | nil => rfl
  | cons off rest ih =>
    simp only [cti1Names]
    rw [readEncoded_congr hA enc (-1) (show 0x16 ≤ start + off by omega)]
    cases h1 : readEncoded enc t (-1) (start + off) with
    | error e => rfl
    | ok r =>
      obtain ⟨name, p⟩ := r
      simp only []
      rw [ih]

theorem cti1Block_congr {s t : Stream} (hA : Agree s t) (bo : BO)
    (enc : LmsEncoding) {pos : Nat} (hp : 0x16 ≤ pos) :
    cti1Block bo enc s pos = cti1Block bo enc t pos := by
  unfold cti1Block
  rw [read_u32_congr hA bo hp]
  cases h1 : read_u32 bo t pos with
  | error e => rfl
  | ok r =>
    obtain ⟨count, p⟩ := r
    have hq := read_u32_ok_pos h1
    simp only []
    rw [read_u32s_congr hA bo count p (by omega)]
    cases h2 : read_u32s bo t count p with
    | error e => rfl
    | ok r2 =>
      obtain ⟨offs, p2⟩ := r2
      simp only []
      rw [cti1Names_congr hA enc hp offs]

theorem labelGroupHeaders_congr {s t : Stream} (hA : Agree s t) (bo : BO) :
    ∀ (count pos : Nat), 0x16 ≤ pos →
      labelGroupHeaders bo s count pos = labelGroupHeaders bo t count pos := by
  intro count
  induction count with
  | zero => intro pos hp; rfl
  | succ m ih =>
    intro pos hp
    simp only [labelGroupHeaders]
    rw [read_u32_congr hA bo hp]
    cases h1 : read_u32 bo t pos with
    | error e => rfl
    | ok r1 =>
      obtain ⟨labelCount, p⟩ := r1
      have hq1 := read_u32_ok_pos h1
      simp only []
      rw [read_u32_congr hA bo (by omega)]
      cases h2 : read_u32 bo t p with
      | error e => rfl
      | ok r2 =>
        obtain ⟨off, p2⟩ := r2
        have hq2 := read_u32_ok_pos h2
        simp only []
        rw [ih p2 (by omega)]

theorem labelEntries_congr {s t : Stream} (hA : Agree s t) (bo : BO) :
    ∀ (count pos : Nat), 0x16 ≤ pos →
      labelEntries bo s count pos = labelEntries bo t count pos := by
  intro count
  induction count with
  | zero => intro pos hp; rfl
  | succ m ih =>
    intro pos hp
    simp only [labelEntries]
    rw [read_u8_congr hA hp]
    cases h1 : read_u8 t pos with
    | error e => rfl
    | ok r1 =>
      obtain ⟨len, p⟩ := r1
      have hq1 := read_u8_ok_pos h1
      simp only []
      rw [readStringFixed_congr hA .utf8 1 (show 0x16 ≤ p by omega)]
      cases h2 : readStringFixed .utf8 1 t len p with
      | error e => rfl
      | ok r2 =>
        obtain ⟨name, p2⟩ := r2
        have hq2 := readStringFixed_ok_pos h2
        simp only []
        rw [read_u32_congr hA bo (by omega)]
        cases h3 : read_u32 bo t p2 with
        | error e => rfl
        | ok r3 =>
          obtain ⟨idx, p3⟩ := r3
          have hq3 := read_u32_ok_pos h3
          simp only []
          rw [ih p3 (by omega)]

theorem labelsOfGroups_congr {s t : Stream} (hA : Agree s t) (bo : BO)
    {start : Nat} (hstart : 0x16 ≤ start) :
    ∀ groups : List (Nat × Nat),
      labelsOfGroups bo s start groups = labelsOfGroups bo t start groups := by
  intro groups
  induction groups with
  | nil => rfl
  | cons g rest ih =>
    obtain ⟨count, off⟩ := g
    simp only [labelsOfGroups]
    rw [labelEntries_congr hA bo count (start + off) (by omega)]
    cases h1 : labelEntries bo t count (start + off) with
    | error e => rfl
    | ok r =>
      obtain ⟨ls, p⟩ := r
      simp only []
      rw [ih]

theorem labelBlock_congr {s t : Stream} (hA : Agree s t) (bo : BO)
    {pos : Nat} (hp : 0x16 ≤ pos) :
    labelBlock bo s pos = labelBlock bo t pos := by
  unfold labelBlock
  rw [read_u32_congr hA bo hp]
  cases h1 : read_u32 bo t pos with
  | error e => rfl
  | ok r =>
    obtain ⟨groupCount, p⟩ := r
    have hq := read_u32_ok_pos h1
    simp only []
    rw [labelGroupHeaders_congr hA bo groupCount p (by omega)]
    cases h2 : labelGroupHeaders bo t groupCount p with
    | error e => rfl
    | ok r2 =>
      obtain ⟨groups, p2⟩ := r2
      simp only []
      rw [labelsOfGroups_congr hA bo hp groups]

theorem pyAlign_ge (pos a : Nat) : pos ≤ pyAlign pos a :=
  Nat.le_add_right pos _

theorem readParamVal_congr {s t : Stream} (hA : Agree s t) (bo : BO)
    (enc : LmsEncoding) (ptype : Nat) {pos : Nat} (hp : 0x16 ≤ pos) :
    readParamVal bo enc s ptype pos = readParamVal bo enc t ptype pos := by
  unfold readParamVal
  split_ifs
  · rw [read_u8_congr hA hp]
  · rw [read_u16_congr hA bo hp]
  · rw [read_s16_congr hA bo hp]
  · rw [read_u32_congr hA bo hp]
  · unfold read_f32bits
    rw [read_u32_congr hA bo hp]
  · rw [read_u16_congr hA bo hp]
    cases h1 : read_u16 bo t pos with
    | error e => rfl
    | ok r =>
      obtain ⟨len, p⟩ := r
      have hq := read_u16_ok_pos h1
      simp only []
      rw [show s.length = t.length from hA.1]
      rw [read_string_congr hA (encPair enc).1 (encPair enc).2 len
        (t.length + 1) (by omega)]
  · rfl
  · rfl

theorem readParamVal_ok_pos {s : Stream} {bo : BO} {enc : LmsEncoding}
    {ptype pos : Nat} {v : ParamVal} {p : Nat}
    (h : readParamVal bo enc s ptype pos = .ok (v, p)) : pos ≤ p := by
  unfold readParamVal at h
  split_ifs at h
  · cases hr : read_u8 s pos with
    | error e => simp only [hr] at h; exact Except.noConfusion h
    | ok r =>
      obtain ⟨w, p2⟩ := r
      simp only [hr] at h
      injection h with h
      injection h with h1 h2
      subst h2
      have := read_u8_ok_pos hr
      omega
  · cases hr : read_u16 bo s pos with
    | error e => simp only [hr] at h; exact Except.noConfusion h
    | ok r =>
      obtain ⟨w, p2⟩ := r
      simp only [hr] at h
      injection h with h
      injection h with h1 h2
      subst h2
      have := read_u16_ok_pos hr
      omega
  · cases hr : read_s16 bo s pos with
    | error e => simp only [hr] at h; exact Except.noConfusion h
    | ok r =>
      obtain ⟨w, p2⟩ := r
      simp only [hr] at h
      injection h with h
      injection h with h1 h2
      subst h2
      have := read_s16_ok_pos hr
      omega
  · cases hr : read_u32 bo s pos with
    | error e => simp only [hr] at h; exact Except.noConfusion h
    | ok r =>
      obtain ⟨w, p2⟩ := r
      simp only [hr] at h
      injection h with h
      injection h with h1 h2
      subst h2
      have := read_u32_ok_pos hr
      omega
  · unfold read_f32bits at h
    cases hr : read_u32 bo s pos with
    | error e => simp only [hr] at h; exact Except.noConfusion h
    | ok r =>
      obtain ⟨w, p2⟩ := r
      simp only [hr] at h
      injection h with h
      injection h with h1 h2
      subst h2
      have := read_u32_ok_pos hr
      omega
  · cases hr : read_u16 bo s pos with
    | error e => simp only [hr] at h; exact Except.noConfusion h
    | ok r =>
      obtain ⟨len, p2⟩ := r
      simp only [hr] at h
      cases hr2 : read_string (encPair enc).1 (encPair enc).2 s len
          (s.length + 1) p2 with
      | error e => simp only [hr2] at h; exact Except.noConfusion h
      | ok r2 =>
        obtain ⟨str, p3⟩ := r2
        simp only [hr2] at h
        injection h with h
        injection h with h1 h2
        subst h2
        have := read_u16_ok_pos hr
        have := read_string_ok_pos hr2
        omega
  · injection h with h
    injection h with h1 h2
    omega

theorem readParams_congr {s t : Stream} (hA : Agree s t) (bo : BO)
    (enc : LmsEncoding) :
    ∀ (prms : List TagParam) (pos : Nat), 0x16 ≤ pos →
      readParams bo enc s prms pos = readParams bo enc t prms pos := by
  intro prms
  induction prms with
  | nil => intro pos hp; rfl
  | cons prm rest ih =>
    intro pos hp
    simp only [readParams]
    rw [readParamVal_congr hA bo enc prm.ptype hp]
    cases h1 : readParamVal bo enc t prm.ptype pos with
    | error e => rfl
    | ok r =>
      obtain ⟨v, p⟩ := r
      have hq := readParamVal_ok_pos h1
      simp only []
      rw [ih p (by omega)]

theorem readParams_ok_pos {s : Stream} {bo : BO} {enc : LmsEncoding} :
    ∀ {prms : List TagParam} {pos : Nat} {vs : List (String × ParamVal × Nat)}
      {p : Nat}, readParams bo enc s prms pos = .ok (vs, p) → pos ≤ p := by
  intro prms
  induction prms with
  | nil =>
    intro pos vs p h
    simp only [readParams] at h
    injection h with h
    injection h with h1 h2
    omega
  | cons prm rest ih =>
    intro pos vs p h
    simp only [readParams] at h
    cases h1 : readParamVal bo enc s prm.ptype pos with
    | error e => simp only [h1] at h; exact Except.noConfusion h
    | ok r =>
      obtain ⟨v, p2⟩ := r
      simp only [h1] at h
      cases h2 : readParams bo enc s rest p2 with
      | error e => simp only [h2] at h; exact Except.noConfusion h
      | ok r2 =>
        obtain ⟨vs2, p3⟩ := r2
        simp only [h2] at h
        injection h with h
        injection h with hh1 hh2
        subst hh2
        have := readParamVal_ok_pos h1
        have := ih h2
        omega

theorem readTagString_congr {s t : Stream} (hA : Agree s t) (bo : BO)
    (enc : LmsEncoding) (tags : List (Nat × TagGroup)) :
    ∀ (fuel pos : Nat) (acc : List MsgItem), 0x16 ≤ pos →
      readTagString bo enc tags s fuel pos acc =
      readTagString bo enc tags t fuel pos acc := by
  intro fuel
  induction fuel with
  | zero => intro pos acc hp; rfl
  | succ m ih =>
    intro pos acc hp
    simp only [readTagString]
    rw [readRaw_congr hA hp (encPair enc).2 false]
    cases h1 : readRaw t pos (encPair enc).2 false with
    | error e => rfl
    | ok r1 =>
      obtain ⟨chunk, p⟩ := r1
      have hq1 := readRaw_ok_pos h1
      simp only []
      cases h2 : pyDecode (encPair enc).1 chunk with
      | none => rfl
      | some ch =>
        simp only []
        split
        · rfl
        · split
          · -- control tag
            rw [read_u16_congr hA bo (by omega)]
            cases h3 : read_u16 bo t p with
            | error e => rfl
            | ok r3 =>
              obtain ⟨gidx, p3⟩ := r3
              have hq3 := read_u16_ok_pos h3
              simp only []
              rw [read_u16_congr hA bo (by omega)]
              cases h4 : read_u16 bo t p3 with
              | error e => rfl
              | ok r4 =>
                obtain ⟨tidx, p4⟩ := r4
                have hq4 := read_u16_ok_pos h4
                simp only []
                cases h5 : dictGet? tags gidx with
                | none => rfl
                | some tagGroup =>
                  simp only []
                  cases h6 : tagGroup.tags.get? tidx with
                  | none => rfl
                  | some tag =>
                    simp only []
                    rw [read_u16_congr hA bo (by omega)]
                    cases h7 : read_u16 bo t p4 with
                    | error e => rfl
                    | ok r7 =>
                      obtain ⟨paramCount, p7⟩ := r7
                      have hq7 := read_u16_ok_pos h7
                      simp only []
                      rw [readParams_congr hA bo enc tag.params p7 (by omega)]
                      cases h8 : readParams bo enc t tag.params p7 with
                      | error e => rfl
                      | ok r8 =>
                        obtain ⟨params, p8⟩ := r8
                        have hq8 := readParams_ok_pos h8
                        simp only []
                        rw [ih p8 _ (by omega)]
          · -- literal character
            rw [ih p _ (by omega)]

theorem txt2Messages_congr {s t : Stream} (hA : Agree s t) (bo : BO)
    (enc : LmsEncoding) (tags : List (Nat × TagGroup)) {start : Nat}
    (hstart : 0x16 ≤ start) :
    ∀ offs : List Nat,
      txt2Messages bo enc tags s start offs =
      txt2Messages bo enc tags t start offs := by
  intro offs
  induction offs with
  | nil => rfl
  | cons off rest ih =>
    simp only [txt2Messages]
    rw [show s.length = t.length from hA.1]
    rw [readTagString_congr hA bo enc tags (t.length + 1) (start + off) []
      (by omega)]
    cases h1 : readTagString bo enc tags t (t.length + 1) (start + off) [] with
    | error e => rfl
    | ok r =>
      obtain ⟨msg, p⟩ := r
      simp only []
      rw [ih]

theorem txt2Block_congr {s t : Stream} (hA : Agree s t) (bo : BO)
    (enc : LmsEncoding) {pos : Nat} (pd : MsbpData) (hp : 0x16 ≤ pos) :
    txt2Block bo enc s pos pd = txt2Block bo enc t pos pd := by
  unfold txt2Block
  cases h0 : txt2Patch pd with
  | error e => rfl
  | ok tags =>
    simp only []
    rw [read_u32_congr hA bo hp]
    cases h1 : read_u32 bo t pos with
    | error e => rfl
    | ok r1 =>
      obtain ⟨messageCount, p⟩ := r1
      have hq1 := read_u32_ok_pos h1
      simp only []
      rw [read_u32s_congr hA bo messageCount p (by omega)]
      cases h2 : read_u32s bo t messageCount p with
      | error e => rfl
      | ok r2 =>
        obtain ⟨offs, p2⟩ := r2
        simp only []
        rw [txt2Messages_congr hA bo enc tags hp offs]

theorem msbpDispatch_congr {s t : Stream} (hA : Agree s t) (bo : BO)
    (enc : LmsEncoding) {pos : Nat} (sig : String) (b : MsbpBlocks)
    (hp : 0x16 ≤ pos) :
    msbpDispatch bo enc s pos sig b = msbpDispatch bo enc t pos sig b := by
  unfold msbpDispatch
  by_cases h1 : sig = "CLR1"
  · simp only [if_pos h1]
    rw [clr1Block_congr hA bo hp]
  · simp only [if_neg h1]
    by_cases h2 : sig = "ATI2"
    · simp only [if_pos h2]
      rw [ati2Block_congr hA bo hp]
    · simp only [if_neg h2]
      by_cases h3 : sig = "ALI2"
      · simp only [if_pos h3]
        rw [ali2Block_congr hA bo enc hp]
      · simp only [if_neg h3]
        by_cases h4 : sig = "TGG2"
        · simp only [if_pos h4]
          rw [tgg2Block_congr hA bo enc hp]
        · simp only [if_neg h4]
          by_cases h5 : sig = "TAG2"
          · simp only [if_pos h5]
            rw [tag2Block_congr hA bo enc hp]
          · simp only [if_neg h5]
            by_cases h6 : sig = "TGP2"
            · simp only [if_pos h6]
              rw [tgp2Block_congr hA bo enc hp]
            · simp only [if_neg h6]
              by_cases h7 : sig = "TGL2"
              · simp only [if_pos h7]
                rw [tgl2Block_congr hA bo enc hp]
              · simp only [if_neg h7]
                by_cases h8 : sig = "SYL3"
                · simp only [if_pos h8]
                  rw [syl3Block_congr hA bo hp]
                · simp only [if_neg h8]
                  by_cases h9 : sig = "CTI1"
                  · simp only [if_pos h9]
                    rw [cti1Block_congr hA bo enc hp]
                  · simp only [if_neg h9]
                    by_cases h10 : sig = "CLB1"
                    · simp only [if_pos h10]
                      rw [labelBlock_congr hA bo hp]
                    · simp only [if_neg h10]
                      by_cases h11 : sig = "ALB1"
                      · simp only [if_pos h11]
                        rw [labelBlock_congr hA bo hp]
                      · simp only [if_neg h11]
                        by_cases h12 : sig = "SLB1"
                        · simp only [if_pos h12]
                          rw [labelBlock_congr hA bo hp]
                        · simp only [if_neg h12]

theorem msbpBlockLoop_congr {s t : Stream} (hA : Agree s t) (bo : BO)
    (enc : LmsEncoding) :
    ∀ (n pos : Nat) (b : MsbpBlocks), 0x16 ≤ pos →
      msbpBlockLoop bo enc s n pos b = msbpBlockLoop bo enc t n pos b := by
  intro n
  induction n with
  | zero => intro pos b hp; rfl
  | succ m ih =>
    intro pos b hp
    simp only [msbpBlockLoop]
    rw [show s.length = t.length from hA.1]
    rw [read_string_congr hA .ascii 1 4 (t.length + 1) hp]
    cases h1 : read_string .ascii 1 t 4 (t.length + 1) pos with
    | error e => rfl
    | ok r1 =>
      obtain ⟨sig, p⟩ := r1
      have hq1 := read_string_ok_pos h1
      simp only []
      rw [read_u32_congr hA bo (by omega)]
      cases h2 : read_u32 bo t p with
      | error e => rfl
      | ok r2 =>
        obtain ⟨size, p2⟩ := r2
        have hq2 := read_u32_ok_pos h2
        simp only []
        rw [readRaw_congr hA (by omega) 8 false]
        cases h3 : readRaw t p2 8 false with
        | error e => rfl
        | ok r3 =>
          obtain ⟨pad, p3⟩ := r3
          have hq3 := readRaw_ok_pos h3
          simp only []
          rw [msbpDispatch_congr hA bo enc sig b (by omega)]
          cases h4 : msbpDispatch bo enc t p3 sig b with
          | error e => rfl
          | ok b2 =>
            simp only []
            exact ih (pyAlign (pos + size + 0x10) 0x10) b2
              (le_trans (by omega) (pyAlign_ge (pos + size + 0x10) 0x10))

/-- C10 core for MSBP: the whole decode is identical on streams that
differ only in the declared file-size field (the field is stored in the
header object and never used). -/
theorem decodeMSBP_congr {s t : Stream} (hA : Agree s t) :
    decodeMSBP s = decodeMSBP t := by
  unfold decodeMSBP
  have hh := lmsHeader_congr hA "MsgPrjBn"
  cases hs : lmsHeader s "MsgPrjBn" with
  | error e =>
    cases ht : lmsHeader t "MsgPrjBn" with
    | error e2 =>
      rw [hs, ht] at hh
      simp only [] at hh
      subst hh
      rfl
    | ok r =>
      rw [hs, ht] at hh
      simp only [] at hh
  | ok r =>
    obtain ⟨h1, p1⟩ := r
    cases ht : lmsHeader t "MsgPrjBn" with
    | error e =>
      rw [hs, ht] at hh
      simp only [] at hh
    | ok r2 =>
      obtain ⟨h2, p2⟩ := r2
      rw [hs, ht] at hh
      simp only [] at hh
      obtain ⟨hpp, hp20, hbo, henc, _hver, hnb⟩ := hh
      subst hpp
      simp only []
      rw [hbo, henc, hnb]
      rw [msbpBlockLoop_congr hA h2.bo h2.encoding h2.numBlocks p1 {}
        (by omega)]

theorem msbtDispatch_congr {s t : Stream} (hA : Agree s t) (bo : BO)
    (enc : LmsEncoding) {pos : Nat} (pd : MsbpData) (sig : String)
    (b : MsbtBlocks) (hp : 0x16 ≤ pos) :
    msbtDispatch bo enc s pos pd sig b = msbtDispatch bo enc t pos pd sig b := by
  unfold msbtDispatch
  split_ifs
  · rw [labelBlock_congr hA bo hp]
  · rw [txt2Block_congr hA bo enc pd hp]
  · rfl

theorem msbtBlockLoop_congr {s t : Stream} (hA : Agree s t) (bo : BO)
    (enc : LmsEncoding) (pd : MsbpData) :
    ∀ (n pos : Nat) (b : MsbtBlocks), 0x16 ≤ pos →
      msbtBlockLoop bo enc s pd n pos b = msbtBlockLoop bo enc t pd n pos b := by
  intro n
  induction n with
  | zero => intro pos b hp; rfl
  | succ m ih =>
    intro pos b hp
    simp only [msbtBlockLoop]
    rw [show s.length = t.length from hA.1]
    rw [read_string_congr hA .ascii 1 4 (t.length + 1) hp]
    cases h1 : read_string .ascii 1 t 4 (t.length + 1) pos with
    | error e => rfl
    | ok r1 =>
      obtain ⟨sig, p⟩ := r1
      have hq1 := read_string_ok_pos h1
      simp only []
      rw [read_u32_congr hA bo (by omega)]
      cases h2 : read_u32 bo t p with
      | error e => rfl
      | ok r2 =>
        obtain ⟨size, p2⟩ := r2
        have hq2 := read_u32_ok_pos h2
        simp only []
        rw [readRaw_congr hA (by omega) 8 false]
        cases h3 : readRaw t p2 8 false with
        | error e => rfl
        | ok r3 =>
          obtain ⟨pad, p3⟩ := r3
          have hq3 := readRaw_ok_pos h3
          simp only []
          rw [msbtDispatch_congr hA bo enc pd sig b (by omega)]
          cases h4 : msbtDispatch bo enc t p3 pd sig b with
          | error e => rfl
          | ok b2 =>
            simp only []
            exact ih (pyAlign (pos + size + 0x10) 0x10) b2
              (le_trans (by omega) (pyAlign_ge (pos + size + 0x10) 0x10))

/-- C10 core for MSBT: the whole decode (against a fixed project
catalog) is identical on streams that differ only in the declared
file-size field. -/
theorem decodeMSBT_congr {s t : Stream} (hA : Agree s t) (pd : MsbpData) :
    decodeMSBT s pd = decodeMSBT t pd := by
  unfold decodeMSBT
  have hh := lmsHeader_congr hA "MsgStdBn"
  cases hs : lmsHeader s "MsgStdBn" with
  | error e =>
    cases ht : lmsHeader t "MsgStdBn" with
    | error e2 =>
      rw [hs, ht] at hh
      simp only [] at hh
      subst hh
      rfl
    | ok r =>
      rw [hs, ht] at hh
      simp only [] at hh
  | ok r =>
    obtain ⟨h1, p1⟩ := r
    cases ht : lmsHeader t "MsgStdBn" with
    | error e =>
      rw [hs, ht] at hh
      simp only [] at hh
    | ok r2 =>
      obtain ⟨h2, p2⟩ := r2
      rw [hs, ht] at hh
      simp only [] at hh
      obtain ⟨hpp, hp20, hbo, henc, _hver, hnb⟩ := hh
      subst hpp
      simp only []
      rw [hbo, henc, hnb]
      rw [msbtBlockLoop_congr hA h2.bo h2.encoding pd h2.numBlocks p1 {}
        (by omega)]

/-- Agreement follows from length equality plus pointwise agreement over
the in-bounds indices outside the file-size field. -/
theorem agree_of_bounded (s t : Stream) (hlen : s.length = t.length)
    (hb : ∀ i, i < s.length → (i < 0x12 ∨ 0x16 ≤ i) → s[i]? = t[i]?) :
    Agree s t := by
  refine ⟨hlen, fun i hi => ?_⟩
  by_cases h : i < s.length
  · exact hb i h hi
  · rw [List.getElem?_eq_none (by omega), List.getElem?_eq_none (by omega)]

/-- C10: the declared file-size field at offset 0x12 of the localization
container header is read but never used — two MSBP inputs, or two MSBT
inputs, that are byte-identical except in that field and that both
decode successfully decode to identical outputs (blocks, catalog data,
message set). -/
theorem C10_declared_file_size_never_used :
    (∀ (s t : Stream) (m m2 : MsbpBlocks × MsbpData), Agree s t →
       decodeMSBP s = .ok m → decodeMSBP t = .ok m2 → m = m2) ∧
    (∀ (s t : Stream) (pd : MsbpData)
       (r r2 : MsbtBlocks × List (String × List MsgItem)), Agree s t →
       decodeMSBT s pd = .ok r → decodeMSBT t pd = .ok r2 → r = r2) := by
  constructor
  · intro s t m m2 hA h1 h2
    rw [decodeMSBP_congr hA, h2] at h1
    injection h1 with h1
    exact h1.symm
  · intro s t pd r r2 hA h1 h2
    rw [decodeMSBT_congr hA pd, h2] at h1
    injection h1 with h1
    exact h1.symm

/-- Witness for C10: the two minimal MSBP files (resp. MSBT files)
differing only at offsets 0x12..0x15 both decode, to equal outputs. -/
theorem C10_declared_file_size_never_used_witness :
    ((({} : MsbpBlocks), ({} : MsbpData)) =
      (({} : MsbpBlocks), ({} : MsbpData))) ∧
    ((({} : MsbtBlocks), ([] : List (String × List MsgItem))) =
      (({} : MsbtBlocks), ([] : List (String × List MsgItem)))) :=
  ⟨C10_declared_file_size_never_used.1 msbpMinStream msbpMinStream2 _ _
      (agree_of_bounded _ _ (by decide) (by decide)) (by decide) (by decide),
   C10_declared_file_size_never_used.2 msbtMinStream msbtMinStream2 {} _ _
      (agree_of_bounded _ _ (by decide) (by decide)) (by decide) (by decide)⟩

end Smo
